import Mathlib

/-!
Verification of the search/substitute/diff engine of the EasyWorship
schedule updater (`scheduleConverter.py`).

Strings are modelled as `List Char` (Python `str` values); Python's
case-folding `str.lower` becomes `Char.toLower` mapped over the list.
The stateful parts (the SQLite database, the scan pass and the rewrite
pass) are modelled by explicit state passing over a `DB` value; fallible
Python operations (attribute/type errors on non-string cells) are
modelled with `Except`.  Python `while` loops are modelled by
fuel-indexed recursion returning `Option`: `none` for every fuel value
models a non-terminating loop.
-/

/-- Python `str.lower`, character-wise (`value.lower()`). -/
def lowerL (s : List Char) : List Char := s.map Char.toLower

/-- Auxiliary scanner for Python `str.find`: try positions `i`,
`i+1`, ... for at most `gap` candidate positions, returning the first
position where `pat` occurs as a prefix of the rest of `hay`. -/
def strFindAux (hay pat : List Char) : Nat → Nat → Option Nat
  | 0, _ => none
  | g + 1, i => if pat.isPrefixOf (hay.drop i) then some i else strFindAux hay pat g (i + 1)

/-- Python `hay.find(pat, start)`: the least index `i` with
`start ≤ i ≤ hay.length` such that `pat` occurs in `hay` starting at
`i`, or `none` (Python `-1`) when there is no such index. -/
def strFind (hay pat : List Char) (start : Nat) : Option Nat :=
  strFindAux hay pat (hay.length + 1 - start) start

/-- Python slice `l[a:b]` for non-negative bounds (clamping like Python). -/
def listSlice (l : List Char) (a b : Nat) : List Char := (l.take b).drop a

/-- Normalize a possibly negative Python index against length `n`
(`l[i]`-style slice endpoint semantics: negative indices count from the
end, out-of-range indices clamp). -/
def pyIdx (n : Nat) (i : Int) : Nat :=
  if i < 0 then (max ((n : Int) + i) 0).toNat else min i.toNat n

/-- Python slice `l[a:b]` for arbitrary (possibly negative) bounds. -/
def pySlice (l : List Char) (a b : Int) : List Char :=
  (l.take (pyIdx l.length b)).drop (pyIdx l.length a)

/-- `EWDatabaseRewriter.searchValuePlain` (scheduleConverter.py:242-252):
`if self.ignorecase: return searchstring.lower() in value.lower()
else: return searchstring in value`.  Python's `in` on strings is
substring containment, i.e. `value.find(searchstring) >= 0`. -/
def searchValuePlain (ignorecase : Bool) (searchstring value : List Char) : Bool :=
  if ignorecase then (strFind (lowerL value) (lowerL searchstring) 0).isSome
  else (strFind value searchstring 0).isSome

/-- Fuel-indexed core of Python `str.replace` for a non-empty pattern:
scan left to right, replacing each (non-overlapping) occurrence of
`pat` by `repl`.  `none` means the fuel ran out (never happens with
fuel `≥ s.length` when `pat ≠ []`). -/
def pyReplaceLoop (pat repl : List Char) : Nat → List Char → Option (List Char)
  | 0, s => if s.isEmpty then some [] else none
  | _ + 1, [] => some []
  | f + 1, c :: rest =>
    if pat.isPrefixOf (c :: rest) then
      (pyReplaceLoop pat repl f ((c :: rest).drop pat.length)).map (fun t => repl ++ t)
    else
      (pyReplaceLoop pat repl f rest).map (fun t => c :: t)

/-- Python `value.replace(pat, repl)` (ordinary substring replace-all):
for the empty pattern Python inserts `repl` before every character and
at the end; otherwise every non-overlapping occurrence of `pat`,
scanning left to right, is replaced by `repl`. -/
def pyReplace (s pat repl : List Char) : List Char :=
  if pat.isEmpty then repl ++ s.flatMap (fun c => c :: repl)
  else (pyReplaceLoop pat repl s.length s).getD s

/-- The `while lastIndex < len(value)` loop of
`EWDatabaseRewriter.substituteValuePlain` (scheduleConverter.py:276-287),
taken in the `else` (case-sensitive flag) branch:
`index = value.lower().find(searchstring.lower(), lastIndex)`; on a miss
append the rest of `value` and set the cursor to the end, on a hit
append the gap and `replacement` and advance the cursor past the match.
Fuel-indexed; `none` for every fuel models non-termination. -/
def substLoop (searchstring replacement value : List Char) :
    Nat → Nat → List Char → Option (List Char)
  | fuel, lastIndex, newstr =>
    if lastIndex < value.length then
      match fuel with
      | 0 => none
      | f + 1 =>
        match strFind (lowerL value) (lowerL searchstring) lastIndex with
        | none => substLoop searchstring replacement value f value.length
            (newstr ++ listSlice value lastIndex value.length)
        | some index => substLoop searchstring replacement value f
            (index + searchstring.length)
            (newstr ++ listSlice value lastIndex index ++ replacement)
    else some newstr

/-- `EWDatabaseRewriter.substituteValuePlain` (scheduleConverter.py:263-287):
`if self.ignorecase: return value.replace(searchstring, replacement)`
(a case-SENSITIVE replace-all), `else:` the case-insensitive scanning
loop `substLoop`.  The loop needs at most `value.length` iterations, so
fuel `value.length + 1` is sufficient whenever it terminates at all;
`none` models a non-terminating loop. -/
def substituteValuePlain (ignorecase : Bool) (searchstring replacement value : List Char) :
    Option (List Char) :=
  if ignorecase then some (pyReplace value searchstring replacement)
  else substLoop searchstring replacement value (value.length + 1) 0 []

theorem strFindAux_eq_some {hay pat : List Char} :
    ∀ {g i j : Nat}, strFindAux hay pat g i = some j →
      i ≤ j ∧ pat.isPrefixOf (hay.drop j) = true := by
  intro g
  induction g with
  | zero => intro i j h; simp [strFindAux] at h
  | succ g ih =>
    intro i j h
    rw [strFindAux] at h
    by_cases hp : pat.isPrefixOf (hay.drop i) = true
    · rw [if_pos hp] at h
      cases h
      exact ⟨Nat.le_refl i, hp⟩
    · rw [if_neg hp] at h
      obtain ⟨h1, h2⟩ := ih h
      exact ⟨Nat.le_of_succ_le h1, h2⟩

theorem strFindAux_isSome {hay pat : List Char} :
    ∀ (g i j : Nat), i ≤ j → j < i + g → pat.isPrefixOf (hay.drop j) = true →
      (strFindAux hay pat g i).isSome = true := by
  intro g
  induction g with
  | zero => intro i j h1 h2 _; omega
  | succ g ih =>
    intro i j h1 h2 hp
    rw [strFindAux]
    by_cases hq : pat.isPrefixOf (hay.drop i) = true
    · rw [if_pos hq]; rfl
    · rw [if_neg hq]
      rcases Nat.eq_or_lt_of_le h1 with rfl | h1'
      · exact absurd hp hq
      · exact ih (i + 1) j h1' (by omega) hp

theorem strFind_le_of_eq_some {hay pat : List Char} {start j : Nat}
    (h : strFind hay pat start = some j) : start ≤ j :=
  (strFindAux_eq_some h).1

theorem strFind_isSome_iff (v pat : List Char) :
    (strFind v pat 0).isSome = true ↔ ∃ l r, v = l ++ pat ++ r := by
  constructor
  · intro h
    cases hf : strFind v pat 0 with
    | none => rw [hf] at h; simp at h
    | some j =>
      obtain ⟨-, hp⟩ := strFindAux_eq_some hf
      rw [List.isPrefixOf_iff_prefix] at hp
      obtain ⟨t, ht⟩ := hp
      refine ⟨v.take j, t, ?_⟩
      conv_lhs => rw [← List.take_append_drop j v]
      rw [← ht, List.append_assoc]
  · rintro ⟨l, r, rfl⟩
    unfold strFind
    have hlen : (l ++ pat ++ r).length = l.length + (pat.length + r.length) := by simp
    refine strFindAux_isSome _ 0 l.length (Nat.zero_le _) (by omega) ?_
    rw [List.append_assoc, List.drop_left, List.isPrefixOf_iff_prefix]
    exact List.prefix_append pat r

theorem strFind_nil_pattern (hay : List Char) (start : Nat) (h : start ≤ hay.length) :
    strFind hay [] start = some start := by
  unfold strFind
  have hg : hay.length + 1 - start = (hay.length - start) + 1 := by omega
  rw [hg, strFindAux]
  simp [List.isPrefixOf]

theorem substLoop_isSome (s r v : List Char) (hs : s ≠ []) :
    ∀ (fuel last : Nat) (acc : List Char), v.length ≤ last + fuel →
      (substLoop s r v fuel last acc).isSome = true := by
  intro fuel
  induction fuel with
  | zero =>
    intro last acc h
    rw [substLoop]
    have hnl : ¬ last < v.length := by omega
    simp [hnl]
  | succ f ih =>
    intro last acc h
    rw [substLoop]
    by_cases hl : last < v.length
    · simp only [if_pos hl]
      cases hf : strFind (lowerL v) (lowerL s) last with
      | none => exact ih v.length _ (by omega)
      | some idx =>
        have hadv : last ≤ idx := strFind_le_of_eq_some hf
        have hslen : 1 ≤ s.length := List.length_pos.mpr hs
        exact ih (idx + s.length) _ (by omega)
    · simp [hl]

theorem substLoop_empty_pattern (r v : List Char) :
    ∀ (fuel last : Nat) (acc : List Char), last < v.length →
      substLoop [] r v fuel last acc = none := by
  intro fuel
  induction fuel with
  | zero => intro last acc h; rw [substLoop]; simp [h]
  | succ f ih =>
    intro last acc h
    rw [substLoop]
    simp only [if_pos h]
    have hlow : lowerL [] = ([] : List Char) := rfl
    have hlen : last ≤ (lowerL v).length := by simp [lowerL]; omega
    rw [hlow, strFind_nil_pattern (lowerL v) last hlen]
    simpa using ih last _ h

/-- C1: the plain-mode substituter with the case-insensitive flag set is
claimed to scan `value` left to right, case-insensitively replacing every
occurrence, so that search "great" / replace "GREAT" on
"How Great Thou Art" yields "How GREAT Thou Art".  In the code the two
branches of `substituteValuePlain` are swapped: with `ignorecase` set it
delegates to the case-SENSITIVE `value.replace`, which misses the
differently-cased occurrence (which the plain matcher itself does find),
so the value comes back unchanged. -/
theorem substituteValuePlain_ignorecase_misses_cased_occurrence :
    substituteValuePlain true "great".data "GREAT".data "How Great Thou Art".data
        = some "How Great Thou Art".data
    ∧ searchValuePlain true "great".data "How Great Thou Art".data = true
    ∧ "How Great Thou Art".data ≠ "How GREAT Thou Art".data := by
  refine ⟨by decide, by decide, by decide⟩

/-- C3: the plain-mode substituter with the case-insensitive flag unset is
claimed to equal ordinary (case-sensitive) substring replace-all.  In the
code this branch runs the case-INSENSITIVE scanning loop: on pattern
"Great", replacement "GREAT", value "great thou" it produces "GREAT thou",
while ordinary replace-all (`pyReplace`, Python `str.replace`) leaves
"great thou" unchanged. -/
theorem substituteValuePlain_case_sensitive_not_replace_all :
    substituteValuePlain false "Great".data "GREAT".data "great thou".data
        = some "GREAT thou".data
    ∧ pyReplace "great thou".data "Great".data "GREAT".data = "great thou".data
    ∧ "GREAT thou".data ≠ "great thou".data := by
  refine ⟨by decide, by decide, by decide⟩

/-- C4: identity when the pattern is absent is claimed for every mode.  In
plain case-sensitive mode the pattern "A" does not occur in "a" under the
mode's (case-sensitive) match semantics — the matcher itself returns
false — yet the substituter (running the swapped, case-insensitive loop)
rewrites "a" to the replacement "x" instead of returning it unchanged. -/
theorem substituteValuePlain_not_identity_on_absent_pattern :
    searchValuePlain false "A".data "a".data = false
    ∧ substituteValuePlain false "A".data "x".data "a".data = some "x".data
    ∧ "x".data ≠ "a".data := by
  refine ⟨by decide, by decide, by decide⟩

/-- C7: plain-mode Matcher contract.  `searchValuePlain` (the embedding of
`EWDatabaseRewriter.searchValuePlain`) returns true in case-sensitive mode
iff `value` contains the pattern as a contiguous substring, and in
case-insensitive mode iff the lower-cased value contains the lower-cased
pattern; it is a total function (no side effects, no exceptions on
strings). -/
theorem searchValuePlain_contract (pat v : List Char) :
    (searchValuePlain false pat v = true ↔ ∃ l r, v = l ++ pat ++ r)
    ∧ (searchValuePlain true pat v = true ↔ ∃ l r, lowerL v = l ++ lowerL pat ++ r) := by
  constructor
  · simpa [searchValuePlain] using strFind_isSome_iff v pat
  · simpa [searchValuePlain] using strFind_isSome_iff (lowerL v) (lowerL pat)

/-- C10: the left-to-right scanning loop of the plain substituter
terminates for every value when the search string is non-empty (fuel
`value.length + 1` always suffices, since every iteration strictly
advances the cursor), while for the empty search string the loop body
never advances the cursor, so whenever the loop is entered at all (the
value is non-empty) it runs forever — `none` for every fuel bound. -/
theorem substLoop_terminates_iff_pattern_nonempty :
    (∀ s r v : List Char, s ≠ [] → (substLoop s r v (v.length + 1) 0 []).isSome = true)
    ∧ (∀ (fuel : Nat) (r v : List Char), v ≠ [] → substLoop [] r v fuel 0 [] = none) := by
  constructor
  · intro s r v hs
    exact substLoop_isSome s r v hs (v.length + 1) 0 [] (by omega)
  · intro fuel r v hv
    exact substLoop_empty_pattern r v fuel 0 [] (List.length_pos.mpr hv)

theorem substLoop_terminates_iff_pattern_nonempty_witness :
    (substLoop "a".data "b".data "aa".data ("aa".data.length + 1) 0 []).isSome = true
    ∧ substLoop [] "b".data "a".data 7 0 [] = none :=
  ⟨substLoop_terminates_iff_pattern_nonempty.1 "a".data "b".data "aa".data (by decide),
   substLoop_terminates_iff_pattern_nonempty.2 7 "b".data "a".data (by decide)⟩

/-- The `while lastIndex < len(value)` loop of
`EWDatabaseRewriter.printDifferencePlain` (scheduleConverter.py:317-337),
producing the highlighted spans of the original and the new value as
`(marked?, text)` pairs (terminal colouring is presentation-only and
dropped).  Note that in the source the two suffix appends
`original += value[lastIndex:]` / `new += newValue[lastIndex+discrepency:]`
(lines 336-337) are INSIDE the while loop, so they run once per
iteration; the embedding mirrors that, appending them in each branch
after the cursor update.  Fuel-indexed; `none` models non-termination. -/
def diffPlainLoop (ignorecase : Bool) (search replace value newValue : List Char) :
    Nat → Nat → Int → List (Bool × List Char) → List (Bool × List Char) →
    Option (List (Bool × List Char) × List (Bool × List Char))
  | fuel, lastIndex, discrepency, original, new =>
    if lastIndex < value.length then
      match fuel with
      | 0 => none
      | f + 1 =>
        match (if ignorecase then strFind (lowerL value) (lowerL search) lastIndex
               else strFind value search lastIndex) with
        | none =>
          diffPlainLoop ignorecase search replace value newValue f value.length discrepency
            (original ++ [(false, pySlice value (value.length : Int) (value.length : Int))])
            (new ++ [(false, pySlice newValue ((value.length : Int) + discrepency)
              (newValue.length : Int))])
        | some index =>
          diffPlainLoop ignorecase search replace value newValue f
            (index + search.length)
            (discrepency - ((replace.length : Int) - (search.length : Int)))
            (original
              ++ [(false, pySlice value (lastIndex : Int) (index : Int)),
                  (true, pySlice value (index : Int) ((index : Int) + (search.length : Int)))]
              ++ [(false, pySlice value ((index : Int) + (search.length : Int))
                    (value.length : Int))])
            (new
              ++ [(false, pySlice newValue ((lastIndex : Int) + discrepency)
                    ((index : Int) + discrepency)),
                  (true, replace)]
              ++ [(false, pySlice newValue
                    ((index : Int) + (search.length : Int)
                      + (discrepency - ((replace.length : Int) - (search.length : Int))))
                    (newValue.length : Int))])
    else some (original, new)

/-- `EWDatabaseRewriter.printDifferencePlain` (scheduleConverter.py:301-341):
run the marking loop from cursor 0, discrepancy 0, empty span lists. -/
def printDifferencePlain (ignorecase : Bool) (search replace value newValue : List Char) :
    Option (List (Bool × List Char) × List (Bool × List Char)) :=
  diffPlainLoop ignorecase search replace value newValue (value.length + 1) 0 0 [] []

/-- Concatenation of all (marked and unmarked) spans of a rendered side. -/
def spanConcat (spans : List (Bool × List Char)) : List Char :=
  spans.flatMap (fun p => p.2)

/-- C2: both diff renderers are claimed to reconstruct their inputs when
the emitted spans are concatenated, including multi-match inputs.  The
plain renderer violates this: on the multi-match input value "aa"
(pattern "a", replacement "b", substituted value "bb" — which is exactly
what the substituter produces) the suffix appends sit inside the loop, so
the spans of the original side concatenate to "aaa" and those of the new
side to "bbb", duplicating characters. -/
theorem printDifferencePlain_breaks_reconstruction_on_multi_match :
    substituteValuePlain false "a".data "b".data "aa".data = some "bb".data
    ∧ (printDifferencePlain false "a".data "b".data "aa".data "bb".data).map
        (fun p => (spanConcat p.1, spanConcat p.2)) = some ("aaa".data, "bbb".data)
    ∧ "aaa".data ≠ "aa".data ∧ "bbb".data ≠ "bb".data := by
  refine ⟨by decide, by decide, by decide, by decide⟩

/-- A value stored in one database cell: SQLite text, integer, blob or
NULL.  Only `str` cells are ever candidates for matching. -/
inductive Cell where
  | str (s : List Char)
  | intVal (n : Int)
  | blob (b : List Nat)
  | null
deriving DecidableEq, Repr

/-- One database table: its name, its column names (`self.c.description`)
and its rows, each carrying the SQLite rowid and the cell of every
column in column order (`select * from t`). -/
structure TableData where
  name : String
  cols : List String
  rows : List (Nat × List Cell)
deriving DecidableEq, Repr

/-- The match report built by the scan pass: Python dict from table name
to the list of column names where the string occurs, insertion-ordered. -/
abbrev Report := List (String × List String)

/-- The `try/except` block of `getTablesWhereStringExists`
(scheduleConverter.py:178-182): if table `t` is already a key, append
column `c` unless present; otherwise create the entry `t ↦ [c]`. -/
def addColumn : Report → String → String → Report
  | [], t, c => [(t, [c])]
  | (t0, cs) :: rest, t, c =>
    if t0 = t then (t0, if c ∈ cs then cs else cs ++ [c]) :: rest
    else (t0, cs) :: addColumn rest t c

/-- One cell of the scan pass (scheduleConverter.py:175-183): only
`isinstance(cell, str)` cells are tested with the configured matcher;
a hit records the column and increments the total, anything else leaves
the accumulator untouched (non-string cells are skipped, no error). -/
def scanCell (matcher : List Char → Bool) (t c : String) (cell : Cell)
    (acc : Report × Nat) : Report × Nat :=
  match cell with
  | .str s => if matcher s then (addColumn acc.1 t c, acc.2 + 1) else acc
  | _ => acc

/-- `for i, cell in enumerate(list(r))` with column names `names[i]`,
modelled by iterating the (column name, cell) pairs of the row. -/
def scanRow (matcher : List Char → Bool) (t : String) :
    List (String × Cell) → Report × Nat → Report × Nat
  | [], acc => acc
  | p :: rest, acc => scanRow matcher t rest (scanCell matcher t p.1 p.2 acc)

/-- `for r in res` over the rows of one table. -/
def scanRows (matcher : List Char → Bool) (t : String) (cols : List String) :
    List (Nat × List Cell) → Report × Nat → Report × Nat
  | [], acc => acc
  | r :: rest, acc => scanRows matcher t cols rest (scanRow matcher t (cols.zip r.2) acc)

/-- `for t in tables` over all tables of the database. -/
def scanTables (matcher : List Char → Bool) : List TableData → Report × Nat → Report × Nat
  | [], acc => acc
  | tab :: rest, acc => scanTables matcher rest (scanRows matcher tab.name tab.cols tab.rows acc)

/-- `EWDatabaseRewriter.getTablesWhereStringExists`
(scheduleConverter.py:162-190): scan every string cell of every table
with the configured matcher, recording each matching (table, column)
pair once and counting every matching cell. -/
def getTablesWhereStringExists (matcher : List Char → Bool) (db : List TableData) :
    Report × Nat :=
  scanTables matcher db ([], 0)

/-- `(t, c)` is recorded in the report. -/
abbrev reportMem (rep : Report) (t c : String) : Prop :=
  ∃ cs, (t, cs) ∈ rep ∧ c ∈ cs

/-- Does this cell count as a match: it is a string and the matcher hits. -/
def isMatchCell (matcher : List Char → Bool) : Cell → Bool
  | .str s => matcher s
  | _ => false

/-- Specification-side count: the number of matching string cells in the
whole database. -/
def matchingCellCount (matcher : List Char → Bool) (db : List TableData) : Nat :=
  (db.map (fun tab =>
    (tab.rows.map (fun r =>
      (tab.cols.zip r.2).countP (fun p => isMatchCell matcher p.2))).sum)).sum

/-- Well-formedness of a report: no duplicate column within a table entry
and no duplicate table key. -/
abbrev reportWF (rep : Report) : Prop :=
  (∀ p ∈ rep, p.2.Nodup) ∧ (rep.map Prod.fst).Nodup


theorem addColumn_cons_hit (t0 : String) (cs0 : List String) (tl : Report) (c : String) :
    addColumn ((t0, cs0) :: tl) t0 c
      = (t0, if c ∈ cs0 then cs0 else cs0 ++ [c]) :: tl := by
  simp [addColumn]

theorem addColumn_cons_miss {t0 t : String} (cs0 : List String) (tl : Report) (c : String)
    (h : t0 ≠ t) : addColumn ((t0, cs0) :: tl) t c = (t0, cs0) :: addColumn tl t c := by
  simp [addColumn, h]

theorem reportMem_addColumn (rep : Report) (t c t' c' : String) :
    reportMem (addColumn rep t c) t' c' ↔ reportMem rep t' c' ∨ (t' = t ∧ c' = c) := by
  induction rep with
  | nil =>
    constructor
    · rintro ⟨cs, hmem, hc⟩
      have heq : (t', cs) = (t, [c]) := List.mem_singleton.mp hmem
      have ht : t' = t := congrArg Prod.fst heq
      have hcs : cs = [c] := congrArg Prod.snd heq
      rw [hcs] at hc
      exact Or.inr ⟨ht, List.mem_singleton.mp hc⟩
    · rintro (⟨cs, hmem, _⟩ | ⟨ht, hc⟩)
      · exact absurd hmem (List.not_mem_nil _)
      · refine ⟨[c], ?_, ?_⟩
        · rw [ht]; exact List.mem_singleton.mpr rfl
        · rw [hc]; exact List.mem_singleton.mpr rfl
  | cons hd tl ih =>
    obtain ⟨t0, cs0⟩ := hd
    by_cases h : t0 = t
    · subst h
      rw [addColumn_cons_hit]
      by_cases hcc : c ∈ cs0
      · rw [if_pos hcc]
        constructor
        · exact fun hx => Or.inl hx
        · rintro (hx | ⟨ht, hc⟩)
          · exact hx
          · refine ⟨cs0, ?_, ?_⟩
            · rw [ht]; exact List.mem_cons_self _ _
            · rw [hc]; exact hcc
      · rw [if_neg hcc]
        constructor
        · rintro ⟨cs, hmem, hc⟩
          rcases List.mem_cons.mp hmem with heq | hm
          · have ht : t' = t0 := congrArg Prod.fst heq
            have hcs : cs = cs0 ++ [c] := congrArg Prod.snd heq
            rw [hcs] at hc
            rcases List.mem_append.mp hc with h1 | h1
            · refine Or.inl ⟨cs0, ?_, h1⟩
              rw [ht]; exact List.mem_cons_self _ _
            · exact Or.inr ⟨ht, List.mem_singleton.mp h1⟩
          · exact Or.inl ⟨cs, List.mem_cons_of_mem _ hm, hc⟩
        · rintro (⟨cs, hmem, hc⟩ | ⟨ht, hc⟩)
          · rcases List.mem_cons.mp hmem with heq | hm
            · have ht : t' = t0 := congrArg Prod.fst heq
              have hcs : cs = cs0 := congrArg Prod.snd heq
              refine ⟨cs0 ++ [c], ?_, ?_⟩
              · rw [ht]; exact List.mem_cons_self _ _
              · rw [hcs] at hc; exact List.mem_append.mpr (Or.inl hc)
            · exact ⟨cs, List.mem_cons_of_mem _ hm, hc⟩
          · refine ⟨cs0 ++ [c], ?_, ?_⟩
            · rw [ht]; exact List.mem_cons_self _ _
            · rw [hc]; exact List.mem_append.mpr (Or.inr (List.mem_singleton.mpr rfl))
    · rw [addColumn_cons_miss cs0 tl c h]
      constructor
      · rintro ⟨cs, hmem, hc⟩
        rcases List.mem_cons.mp hmem with heq | hm
        · have ht : t' = t0 := congrArg Prod.fst heq
          have hcs : cs = cs0 := congrArg Prod.snd heq
          refine Or.inl ⟨cs0, ?_, ?_⟩
          · rw [ht]; exact List.mem_cons_self _ _
          · rw [hcs] at hc; exact hc
        · rcases ih.mp ⟨cs, hm, hc⟩ with ⟨cs1, hm1, hc1⟩ | h1
          · exact Or.inl ⟨cs1, List.mem_cons_of_mem _ hm1, hc1⟩
          · exact Or.inr h1
      · rintro (⟨cs, hmem, hc⟩ | ⟨ht, hc⟩)
        · rcases List.mem_cons.mp hmem with heq | hm
          · have ht : t' = t0 := congrArg Prod.fst heq
            have hcs : cs = cs0 := congrArg Prod.snd heq
            refine ⟨cs0, ?_, ?_⟩
            · rw [ht]; exact List.mem_cons_self _ _
            · rw [hcs] at hc; exact hc
          · obtain ⟨cs1, hm1, hc1⟩ := ih.mpr (Or.inl ⟨cs, hm, hc⟩)
            exact ⟨cs1, List.mem_cons_of_mem _ hm1, hc1⟩
        · obtain ⟨cs1, hm1, hc1⟩ := ih.mpr (Or.inr ⟨ht, hc⟩)
          exact ⟨cs1, List.mem_cons_of_mem _ hm1, hc1⟩

theorem mem_keys_addColumn (rep : Report) (t c x : String) :
    x ∈ (addColumn rep t c).map Prod.fst ↔ x ∈ rep.map Prod.fst ∨ x = t := by
  induction rep with
  | nil => simp [addColumn]
  | cons hd tl ih =>
    obtain ⟨t0, cs0⟩ := hd
    by_cases h : t0 = t
    · subst h
      rw [addColumn_cons_hit]
      simp only [List.map_cons, List.mem_cons]
      constructor
      · rintro (rfl | h1)
        · exact Or.inl (Or.inl rfl)
        · exact Or.inl (Or.inr h1)
      · rintro ((rfl | h1) | rfl)
        · exact Or.inl rfl
        · exact Or.inr h1
        · exact Or.inl rfl
    · rw [addColumn_cons_miss cs0 tl c h]
      simp only [List.map_cons, List.mem_cons, ih]
      tauto

theorem reportWF_addColumn {rep : Report} (t c : String) (h : reportWF rep) :
    reportWF (addColumn rep t c) := by
  obtain ⟨h1, h2⟩ := h
  induction rep with
  | nil =>
    constructor
    · intro p hp
      have : p = (t, [c]) := List.mem_singleton.mp hp
      rw [this]
      exact List.nodup_singleton c
    · simp [addColumn]
  | cons hd tl ih =>
    obtain ⟨t0, cs0⟩ := hd
    have h1tl : ∀ p ∈ tl, p.2.Nodup := fun p hp => h1 p (List.mem_cons_of_mem _ hp)
    have h2tl : (tl.map Prod.fst).Nodup := (List.nodup_cons.mp h2).2
    have h0 : t0 ∉ tl.map Prod.fst := (List.nodup_cons.mp h2).1
    by_cases h : t0 = t
    · subst h
      rw [addColumn_cons_hit]
      constructor
      · intro p hp
        rcases List.mem_cons.mp hp with heq | hmem
        · rw [heq]
          by_cases hcc : c ∈ cs0
          · rw [if_pos hcc]
            exact h1 (t0, cs0) (List.mem_cons_self _ _)
          · rw [if_neg hcc]
            have hnd : cs0.Nodup := h1 (t0, cs0) (List.mem_cons_self _ _)
            simp [List.nodup_append, hnd, hcc]
        · exact h1tl p hmem
      · simpa using h2
    · rw [addColumn_cons_miss cs0 tl c h]
      obtain ⟨ih1, ih2⟩ := ih h1tl h2tl
      constructor
      · intro p hp
        rcases List.mem_cons.mp hp with heq | hmem
        · rw [heq]
          exact h1 (t0, cs0) (List.mem_cons_self _ _)
        · exact ih1 p hmem
      · simp only [List.map_cons, List.nodup_cons]
        refine ⟨?_, ih2⟩
        rw [mem_keys_addColumn]
        rintro (hk | rfl)
        · exact h0 hk
        · exact h rfl

theorem reportMem_scanCell (m : List Char → Bool) (t c : String) (cell : Cell)
    (acc : Report × Nat) (t' c' : String) :
    reportMem (scanCell m t c cell acc).1 t' c' ↔
      reportMem acc.1 t' c' ∨ (t' = t ∧ c' = c ∧ isMatchCell m cell = true) := by
  cases cell with
  | str s =>
    by_cases hm : m s = true
    · simp only [scanCell, if_pos hm, isMatchCell, hm, and_true]
      exact reportMem_addColumn acc.1 t c t' c'
    · simp [scanCell, hm, isMatchCell]
  | intVal n => simp [scanCell, isMatchCell]
  | blob b => simp [scanCell, isMatchCell]
  | null => simp [scanCell, isMatchCell]

theorem scanCell_count (m : List Char → Bool) (t c : String) (cell : Cell)
    (acc : Report × Nat) :
    (scanCell m t c cell acc).2 = acc.2 + (if isMatchCell m cell = true then 1 else 0) := by
  cases cell with
  | str s =>
    by_cases hm : m s = true
    · simp [scanCell, hm, isMatchCell]
    · simp [scanCell, hm, isMatchCell]
  | intVal n => simp [scanCell, isMatchCell]
  | blob b => simp [scanCell, isMatchCell]
  | null => simp [scanCell, isMatchCell]

theorem reportWF_scanCell (m : List Char → Bool) (t c : String) (cell : Cell)
    (acc : Report × Nat) (h : reportWF acc.1) : reportWF (scanCell m t c cell acc).1 := by
  cases cell with
  | str s =>
    by_cases hm : m s = true
    · simpa [scanCell, hm] using reportWF_addColumn t c h
    · simpa [scanCell, hm] using h
  | intVal n => simpa [scanCell] using h
  | blob b => simpa [scanCell] using h
  | null => simpa [scanCell] using h

theorem reportMem_scanRow (m : List Char → Bool) (t : String) :
    ∀ (pairs : List (String × Cell)) (acc : Report × Nat) (t' c' : String),
    reportMem (scanRow m t pairs acc).1 t' c' ↔
      reportMem acc.1 t' c' ∨ (t' = t ∧ ∃ s, (c', Cell.str s) ∈ pairs ∧ m s = true) := by
  intro pairs
  induction pairs with
  | nil => intro acc t' c'; simp [scanRow]
  | cons p rest ih =>
    obtain ⟨pc, pcell⟩ := p
    intro acc t' c'
    rw [scanRow, ih, reportMem_scanCell]
    constructor
    · rintro ((hacc | ⟨ht, hc, hm⟩) | ⟨ht, s, hmem, hs⟩)
      · exact Or.inl hacc
      · refine Or.inr ⟨ht, ?_⟩
        cases hcell : pcell with
        | str s =>
          rw [hcell] at hm
          refine ⟨s, ?_, hm⟩
          apply List.mem_cons.mpr
          left
          rw [hc]
        | intVal n => rw [hcell] at hm; simp [isMatchCell] at hm
        | blob b => rw [hcell] at hm; simp [isMatchCell] at hm
        | null => rw [hcell] at hm; simp [isMatchCell] at hm
      · exact Or.inr ⟨ht, s, List.mem_cons_of_mem _ hmem, hs⟩
    · rintro (hacc | ⟨ht, s, hmem, hs⟩)
      · exact Or.inl (Or.inl hacc)
      · rcases List.mem_cons.mp hmem with heq | hm
        · have hc : c' = pc := congrArg Prod.fst heq
          have hcell : Cell.str s = pcell := congrArg Prod.snd heq
          refine Or.inl (Or.inr ⟨ht, hc, ?_⟩)
          rw [← hcell]
          exact hs
        · exact Or.inr ⟨ht, s, hm, hs⟩

theorem scanRow_count (m : List Char → Bool) (t : String) :
    ∀ (pairs : List (String × Cell)) (acc : Report × Nat),
    (scanRow m t pairs acc).2 = acc.2 + pairs.countP (fun p => isMatchCell m p.2) := by
  intro pairs
  induction pairs with
  | nil => intro acc; simp [scanRow]
  | cons p rest ih =>
    intro acc
    rw [scanRow, ih, scanCell_count, List.countP_cons]
    by_cases hm : isMatchCell m p.2 = true
    · simp [hm]; omega
    · simp [hm]

theorem reportWF_scanRow (m : List Char → Bool) (t : String) :
    ∀ (pairs : List (String × Cell)) (acc : Report × Nat), reportWF acc.1 →
      reportWF (scanRow m t pairs acc).1 := by
  intro pairs
  induction pairs with
  | nil => intro acc h; simpa [scanRow] using h
  | cons p rest ih =>
    intro acc h
    rw [scanRow]
    exact ih _ (reportWF_scanCell m t p.1 p.2 acc h)

theorem reportMem_scanRows (m : List Char → Bool) (t : String) (cols : List String) :
    ∀ (rows : List (Nat × List Cell)) (acc : Report × Nat) (t' c' : String),
    reportMem (scanRows m t cols rows acc).1 t' c' ↔
      reportMem acc.1 t' c'
      ∨ (t' = t ∧ ∃ r ∈ rows, ∃ s, (c', Cell.str s) ∈ cols.zip r.2 ∧ m s = true) := by
  intro rows
  induction rows with
  | nil => intro acc t' c'; simp [scanRows]
  | cons r rest ih =>
    intro acc t' c'
    rw [scanRows, ih, reportMem_scanRow]
    constructor
    · rintro ((hacc | ⟨ht, s, hmem, hs⟩) | ⟨ht, r1, hr1, s, hmem, hs⟩)
      · exact Or.inl hacc
      · exact Or.inr ⟨ht, r, List.mem_cons_self _ _, s, hmem, hs⟩
      · exact Or.inr ⟨ht, r1, List.mem_cons_of_mem _ hr1, s, hmem, hs⟩
    · rintro (hacc | ⟨ht, r1, hr1, s, hmem, hs⟩)
      · exact Or.inl (Or.inl hacc)
      · rcases List.mem_cons.mp hr1 with heq | hm
        · rw [heq] at hmem
          exact Or.inl (Or.inr ⟨ht, s, hmem, hs⟩)
        · exact Or.inr ⟨ht, r1, hm, s, hmem, hs⟩

theorem scanRows_count (m : List Char → Bool) (t : String) (cols : List String) :
    ∀ (rows : List (Nat × List Cell)) (acc : Report × Nat),
    (scanRows m t cols rows acc).2
      = acc.2 + (rows.map (fun r => (cols.zip r.2).countP (fun p => isMatchCell m p.2))).sum := by
  intro rows
  induction rows with
  | nil => intro acc; simp [scanRows]
  | cons r rest ih =>
    intro acc
    rw [scanRows, ih, scanRow_count]
    simp
    omega

theorem reportWF_scanRows (m : List Char → Bool) (t : String) (cols : List String) :
    ∀ (rows : List (Nat × List Cell)) (acc : Report × Nat), reportWF acc.1 →
      reportWF (scanRows m t cols rows acc).1 := by
  intro rows
  induction rows with
  | nil => intro acc h; simpa [scanRows] using h
  | cons r rest ih =>
    intro acc h
    rw [scanRows]
    exact ih _ (reportWF_scanRow m t _ acc h)

theorem reportMem_scanTables (m : List Char → Bool) :
    ∀ (tabs : List TableData) (acc : Report × Nat) (t' c' : String),
    reportMem (scanTables m tabs acc).1 t' c' ↔
      reportMem acc.1 t' c'
      ∨ ∃ tab ∈ tabs, tab.name = t'
          ∧ ∃ r ∈ tab.rows, ∃ s, (c', Cell.str s) ∈ tab.cols.zip r.2 ∧ m s = true := by
  intro tabs
  induction tabs with
  | nil => intro acc t' c'; simp [scanTables]
  | cons tab rest ih =>
    intro acc t' c'
    rw [scanTables, ih, reportMem_scanRows]
    constructor
    · rintro ((hacc | ⟨ht, hrest⟩) | ⟨tab1, htab1, ht1, hrest⟩)
      · exact Or.inl hacc
      · exact Or.inr ⟨tab, List.mem_cons_self _ _, ht.symm, hrest⟩
      · exact Or.inr ⟨tab1, List.mem_cons_of_mem _ htab1, ht1, hrest⟩
    · rintro (hacc | ⟨tab1, htab1, ht1, hrest⟩)
      · exact Or.inl (Or.inl hacc)
      · rcases List.mem_cons.mp htab1 with heq | hm
        · rw [heq] at ht1 hrest
          exact Or.inl (Or.inr ⟨ht1.symm, hrest⟩)
        · exact Or.inr ⟨tab1, hm, ht1, hrest⟩

theorem scanTables_count (m : List Char → Bool) :
    ∀ (tabs : List TableData) (acc : Report × Nat),
    (scanTables m tabs acc).2 = acc.2 + matchingCellCount m tabs := by
  intro tabs
  induction tabs with
  | nil => intro acc; simp [scanTables, matchingCellCount]
  | cons tab rest ih =>
    intro acc
    rw [scanTables, ih, scanRows_count]
    simp [matchingCellCount]
    omega

theorem reportWF_scanTables (m : List Char → Bool) :
    ∀ (tabs : List TableData) (acc : Report × Nat), reportWF acc.1 →
      reportWF (scanTables m tabs acc).1 := by
  intro tabs
  induction tabs with
  | nil => intro acc h; simpa [scanTables] using h
  | cons tab rest ih =>
    intro acc h
    rw [scanTables]
    exact ih _ (reportWF_scanRows m tab.name tab.cols tab.rows acc h)

/-- C5: correctness of the scan pass.  For every matcher and database:
a (table, column) pair is recorded in the report iff some row of that
table has a string cell in that column that the matcher accepts; each
column is recorded at most once per table (and each table key at most
once); the reported total equals the number of matching string cells
(one per cell, not per column); and non-string cells never touch the
accumulator (they are skipped, not errors — the scan is a total
function). -/
theorem getTablesWhereStringExists_contract (m : List Char → Bool) (db : List TableData) :
    (∀ t c, reportMem (getTablesWhereStringExists m db).1 t c ↔
        ∃ tab ∈ db, tab.name = t
          ∧ ∃ r ∈ tab.rows, ∃ s, (c, Cell.str s) ∈ tab.cols.zip r.2 ∧ m s = true)
    ∧ reportWF (getTablesWhereStringExists m db).1
    ∧ (getTablesWhereStringExists m db).2 = matchingCellCount m db
    ∧ (∀ t c cell acc, isMatchCell m cell = false → scanCell m t c cell acc = acc) := by
  refine ⟨?_, ?_, ?_, ?_⟩
  · intro t c
    rw [getTablesWhereStringExists, reportMem_scanTables]
    have hnil : ¬ reportMem ([] : Report) t c := by
      rintro ⟨cs, hmem, _⟩
      exact absurd hmem (List.not_mem_nil _)
    constructor
    · rintro (h | h)
      · exact absurd h hnil
      · exact h
    · exact fun h => Or.inr h
  · refine reportWF_scanTables m db ([], 0) ⟨?_, ?_⟩
    · intro p hp
      exact absurd hp (List.not_mem_nil _)
    · simp
  · rw [getTablesWhereStringExists, scanTables_count]
    simp
  · intro t c cell acc h
    cases cell with
    | str s =>
      simp only [isMatchCell] at h
      simp [scanCell, h]
    | intVal n => simp [scanCell]
    | blob b => simp [scanCell]
    | null => simp [scanCell]

theorem getTablesWhereStringExists_contract_witness :
    reportMem (getTablesWhereStringExists (searchValuePlain true "great".data)
      [TableData.mk "Songs" ["id", "title"]
        [(1, [Cell.intVal 1, Cell.str "Amazing Grace".data]),
         (2, [Cell.intVal 2, Cell.str "How Great Thou Art".data])]]).1 "Songs" "title"
    ∧ (getTablesWhereStringExists (searchValuePlain true "great".data)
      [TableData.mk "Songs" ["id", "title"]
        [(1, [Cell.intVal 1, Cell.str "Amazing Grace".data]),
         (2, [Cell.intVal 2, Cell.str "How Great Thou Art".data])]]).2 = 1 := by
  have h := getTablesWhereStringExists_contract (searchValuePlain true "great".data)
    [TableData.mk "Songs" ["id", "title"]
      [(1, [Cell.intVal 1, Cell.str "Amazing Grace".data]),
       (2, [Cell.intVal 2, Cell.str "How Great Thou Art".data])]]
  refine ⟨?_, ?_⟩
  · refine (h.1 "Songs" "title").mpr ?_
    refine ⟨_, List.mem_singleton.mpr rfl, rfl, ?_⟩
    refine ⟨(2, [Cell.intVal 2, Cell.str "How Great Thou Art".data]), by decide, ?_⟩
    exact ⟨"How Great Thou Art".data, by decide, by decide⟩
  · rw [h.2.2.1]
    decide

/-- `select rowid, {col} from {t}` (scheduleConverter.py:212): the
(rowid, cell) pairs of column `c` of table `t`.  A table is found by
name; the cell is the row entry at the column's index. -/
def selectCol (db : List TableData) (t c : String) : List (Nat × Cell) :=
  match db.find? (fun tab => tab.name == t) with
  | none => []
  | some tab => tab.rows.map (fun r => (r.1, r.2.getD (tab.cols.indexOf c) Cell.null))

/-- ``update `t` set `c`=? where `rowid`=?`` (scheduleConverter.py:221-222):
write value `v` into column `c` of the row with rowid `rid` of table `t`. -/
def updateCell (db : List TableData) (t c : String) (rid : Nat) (v : Cell) : List TableData :=
  db.map (fun tab =>
    if tab.name == t then
      TableData.mk tab.name tab.cols
        (tab.rows.map (fun r =>
          if r.1 == rid then (r.1, r.2.set (tab.cols.indexOf c) v) else r))
    else tab)

/-- A matched cell, identified by (table, column, rowid): what
`startReplacement` processed (and, in a real run, updated). -/
abbrev MatchId := String × String × Nat

/-- The inner `for r in result` loop of `startReplacement`
(scheduleConverter.py:214-226): for each fetched (rowid, cell) pair of
the column, apply the configured matcher (`self.searchValue`) to the
cell; on a hit compute the substitution (`self.substituteValue`) and, in
a real run, stage the single-cell update; in a dry run change nothing.
Either call may raise on a non-string cell (`Except.error`). -/
def runRows (dryRun : Bool) (matchE : Cell → Except Unit Bool)
    (substE : Cell → Except Unit Cell) (t c : String) :
    List (Nat × Cell) → List TableData → List MatchId →
      Except Unit (List TableData × List MatchId)
  | [], db, ms => Except.ok (db, ms)
  | r :: rest, db, ms =>
    match matchE r.2 with
    | Except.error e => Except.error e
    | Except.ok b =>
      if b then
        match substE r.2 with
        | Except.error e => Except.error e
        | Except.ok nv =>
          if dryRun then runRows dryRun matchE substE t c rest db (ms ++ [(t, c, r.1)])
          else runRows dryRun matchE substE t c rest (updateCell db t c r.1 nv)
            (ms ++ [(t, c, r.1)])
      else runRows dryRun matchE substE t c rest db ms

/-- The `for col in tables[t]` loop of `startReplacement`
(scheduleConverter.py:211-229): process every flagged column of one
table, fetching the column fresh from the current database state, and
commit once per column in a real run (`if not self.dryRun:
self.conn.commit()`, line 227-228; the commit counter models it). -/
def runCols (dryRun : Bool) (matchE : Cell → Except Unit Bool)
    (substE : Cell → Except Unit Cell) (t : String) :
    List String → List TableData → List MatchId → Nat →
      Except Unit (List TableData × List MatchId × Nat)
  | [], db, ms, k => Except.ok (db, ms, k)
  | c :: cs, db, ms, k =>
    match runRows dryRun matchE substE t c (selectCol db t c) db ms with
    | Except.error e => Except.error e
    | Except.ok (db', ms') =>
      runCols dryRun matchE substE t cs db' ms' (if dryRun then k else k + 1)

/-- The `for t in tables.keys()` loop of `startReplacement`
(scheduleConverter.py:210-229). -/
def runTables (dryRun : Bool) (matchE : Cell → Except Unit Bool)
    (substE : Cell → Except Unit Cell) :
    Report → List TableData → List MatchId → Nat →
      Except Unit (List TableData × List MatchId × Nat)
  | [], db, ms, k => Except.ok (db, ms, k)
  | tc :: rest, db, ms, k =>
    match runCols dryRun matchE substE tc.1 tc.2 db ms k with
    | Except.error e => Except.error e
    | Except.ok (db', ms', k') => runTables dryRun matchE substE rest db' ms' k'

/-- `EWDatabaseRewriter.startReplacement` (scheduleConverter.py:192-240),
restricted to its database effect: run the per-table/per-column rewrite
over the report, returning the final database, the processed matches and
the number of commits. -/
def startReplacement (dryRun : Bool) (matchE : Cell → Except Unit Bool)
    (substE : Cell → Except Unit Cell) (report : Report) (db : List TableData) :
    Except Unit (List TableData × List MatchId × Nat) :=
  runTables dryRun matchE substE report db [] 0

/-- The flagged (table, column) pairs of a report, in processing order. -/
def reportPairs (report : Report) : List (String × String) :=
  report.flatMap (fun tc => tc.2.map (fun c => (tc.1, c)))

/-- Database well-formedness: every row has exactly one cell per column. -/
abbrev dbWF (db : List TableData) : Prop :=
  ∀ tab ∈ db, ∀ r ∈ tab.rows, r.2.length = tab.cols.length

/-- The pure content of one column pass: which matches it produces and
whether it raises, independent of the database being updated (decisions
are taken on the fetched snapshot only). -/
def rowsExtra (matchE : Cell → Except Unit Bool) (substE : Cell → Except Unit Cell)
    (t c : String) : List (Nat × Cell) → Except Unit (List MatchId)
  | [] => Except.ok []
  | r :: rest =>
    match matchE r.2 with
    | Except.error e => Except.error e
    | Except.ok b =>
      if b then
        match substE r.2 with
        | Except.error e => Except.error e
        | Except.ok _ =>
          (rowsExtra matchE substE t c rest).map (fun ex => (t, c, r.1) :: ex)
      else rowsExtra matchE substE t c rest

/-- `EWDatabaseRewriter.searchValuePlain` applied to a raw cell, as the
substitution pass does (scheduleConverter.py:216: no `isinstance` guard):
on a non-string cell Python raises (`.lower()` / `in` on a non-string),
modelled as `Except.error`. -/
def searchValuePlainCell (ignorecase : Bool) (searchstring : List Char) :
    Cell → Except Unit Bool
  | Cell.str v => Except.ok (searchValuePlain ignorecase searchstring v)
  | _ => Except.error ()

/-- `EWDatabaseRewriter.substituteValuePlain` applied to a raw cell
(scheduleConverter.py:217): raises on a non-string cell; on a string cell
it returns the substituted string (the `none`/diverging case of the
fuelled loop is also mapped to `error`, but it cannot occur for a
non-empty pattern). -/
def substituteValuePlainCell (ignorecase : Bool) (searchstring replacement : List Char) :
    Cell → Except Unit Cell
  | Cell.str v =>
    match substituteValuePlain ignorecase searchstring replacement v with
    | some s => Except.ok (Cell.str s)
    | none => Except.error ()
  | _ => Except.error ()

theorem runRows_dry (mE : Cell → Except Unit Bool) (sE : Cell → Except Unit Cell)
    (t c : String) : ∀ (rows : List (Nat × Cell)) (db : List TableData)
      (ms : List MatchId) (res : List TableData × List MatchId),
    runRows true mE sE t c rows db ms = Except.ok res → res.1 = db := by
  intro rows
  induction rows with
  | nil =>
    intro db ms res h
    rw [runRows] at h
    have := Except.ok.inj h
    rw [← this]
  | cons r rest ih =>
    intro db ms res h
    rw [runRows] at h
    cases hm : mE r.2 with
    | error e => simp [hm] at h
    | ok b =>
      rw [hm] at h
      cases b with
      | false => exact ih db ms res (by simpa using h)
      | true =>
        cases hs : sE r.2 with
        | error e => simp [hs] at h
        | ok nv => exact ih db (ms ++ [(t, c, r.1)]) res (by simpa [hs] using h)

theorem runCols_dry (mE : Cell → Except Unit Bool) (sE : Cell → Except Unit Cell)
    (t : String) : ∀ (cs : List String) (db : List TableData) (ms : List MatchId)
      (k : Nat) (res : List TableData × List MatchId × Nat),
    runCols true mE sE t cs db ms k = Except.ok res → res.1 = db ∧ res.2.2 = k := by
  intro cs
  induction cs with
  | nil =>
    intro db ms k res h
    rw [runCols] at h
    have := Except.ok.inj h
    rw [← this]
    exact ⟨rfl, rfl⟩
  | cons c cs ih =>
    intro db ms k res h
    rw [runCols] at h
    cases hr : runRows true mE sE t c (selectCol db t c) db ms with
    | error e => simp [hr] at h
    | ok p =>
      rw [hr] at h
      obtain ⟨p1, p2⟩ := p
      have hdb : p1 = db := runRows_dry mE sE t c _ db ms (p1, p2) hr
      have := ih p1 p2 k res (by simpa using h)
      rw [← hdb]
      exact this

theorem runTables_dry (mE : Cell → Except Unit Bool) (sE : Cell → Except Unit Cell) :
    ∀ (report : Report) (db : List TableData) (ms : List MatchId) (k : Nat)
      (res : List TableData × List MatchId × Nat),
    runTables true mE sE report db ms k = Except.ok res → res.1 = db ∧ res.2.2 = k := by
  intro report
  induction report with
  | nil =>
    intro db ms k res h
    rw [runTables] at h
    have := Except.ok.inj h
    rw [← this]
    exact ⟨rfl, rfl⟩
  | cons tc rest ih =>
    intro db ms k res h
    rw [runTables] at h
    cases hc : runCols true mE sE tc.1 tc.2 db ms k with
    | error e => simp [hc] at h
    | ok p =>
      rw [hc] at h
      obtain ⟨p1, p2, p3⟩ := p
      obtain ⟨hdb, hk⟩ := runCols_dry mE sE tc.1 tc.2 db ms k (p1, p2, p3) hc
      have := ih p1 p2 p3 res (by simpa using h)
      simp only at hdb hk
      rw [← hdb, ← hk]
      exact this

theorem runRows_cons_err (d : Bool) (mE : Cell → Except Unit Bool)
    (sE : Cell → Except Unit Cell) (t c : String) (r : Nat × Cell)
    (rest : List (Nat × Cell)) (db : List TableData) (ms : List MatchId) (e : Unit)
    (hm : mE r.2 = Except.error e) :
    runRows d mE sE t c (r :: rest) db ms = Except.error e := by
  simp [runRows, hm]

theorem runRows_cons_miss (d : Bool) (mE : Cell → Except Unit Bool)
    (sE : Cell → Except Unit Cell) (t c : String) (r : Nat × Cell)
    (rest : List (Nat × Cell)) (db : List TableData) (ms : List MatchId)
    (hm : mE r.2 = Except.ok false) :
    runRows d mE sE t c (r :: rest) db ms = runRows d mE sE t c rest db ms := by
  simp [runRows, hm]

theorem runRows_cons_substErr (d : Bool) (mE : Cell → Except Unit Bool)
    (sE : Cell → Except Unit Cell) (t c : String) (r : Nat × Cell)
    (rest : List (Nat × Cell)) (db : List TableData) (ms : List MatchId) (e : Unit)
    (hm : mE r.2 = Except.ok true) (hs : sE r.2 = Except.error e) :
    runRows d mE sE t c (r :: rest) db ms = Except.error e := by
  simp [runRows, hm, hs]

theorem runRows_cons_hit (d : Bool) (mE : Cell → Except Unit Bool)
    (sE : Cell → Except Unit Cell) (t c : String) (r : Nat × Cell)
    (rest : List (Nat × Cell)) (db : List TableData) (ms : List MatchId) (nv : Cell)
    (hm : mE r.2 = Except.ok true) (hs : sE r.2 = Except.ok nv) :
    runRows d mE sE t c (r :: rest) db ms
      = if d then runRows d mE sE t c rest db (ms ++ [(t, c, r.1)])
        else runRows d mE sE t c rest (updateCell db t c r.1 nv) (ms ++ [(t, c, r.1)]) := by
  cases d with
  | true => simp [runRows, hm, hs]
  | false => simp [runRows, hm, hs]

theorem rowsExtra_cons_err (mE : Cell → Except Unit Bool) (sE : Cell → Except Unit Cell)
    (t c : String) (r : Nat × Cell) (rest : List (Nat × Cell)) (e : Unit)
    (hm : mE r.2 = Except.error e) :
    rowsExtra mE sE t c (r :: rest) = Except.error e := by
  simp [rowsExtra, hm]

theorem rowsExtra_cons_miss (mE : Cell → Except Unit Bool) (sE : Cell → Except Unit Cell)
    (t c : String) (r : Nat × Cell) (rest : List (Nat × Cell))
    (hm : mE r.2 = Except.ok false) :
    rowsExtra mE sE t c (r :: rest) = rowsExtra mE sE t c rest := by
  simp [rowsExtra, hm]

theorem rowsExtra_cons_substErr (mE : Cell → Except Unit Bool) (sE : Cell → Except Unit Cell)
    (t c : String) (r : Nat × Cell) (rest : List (Nat × Cell)) (e : Unit)
    (hm : mE r.2 = Except.ok true) (hs : sE r.2 = Except.error e) :
    rowsExtra mE sE t c (r :: rest) = Except.error e := by
  simp [rowsExtra, hm, hs]

theorem rowsExtra_cons_hit (mE : Cell → Except Unit Bool) (sE : Cell → Except Unit Cell)
    (t c : String) (r : Nat × Cell) (rest : List (Nat × Cell)) (nv : Cell)
    (hm : mE r.2 = Except.ok true) (hs : sE r.2 = Except.ok nv) :
    rowsExtra mE sE t c (r :: rest)
      = (rowsExtra mE sE t c rest).map (fun ex => (t, c, r.1) :: ex) := by
  simp [rowsExtra, hm, hs]

theorem runRows_matches (d : Bool) (mE : Cell → Except Unit Bool)
    (sE : Cell → Except Unit Cell) (t c : String) :
    ∀ (rows : List (Nat × Cell)) (db : List TableData) (ms : List MatchId),
    (runRows d mE sE t c rows db ms).map (fun p => p.2)
      = (rowsExtra mE sE t c rows).map (fun ex => ms ++ ex) := by
  intro rows
  induction rows with
  | nil => intro db ms; simp [runRows, rowsExtra, Except.map]
  | cons r rest ih =>
    intro db ms
    cases hm : mE r.2 with
    | error e =>
      rw [runRows_cons_err d mE sE t c r rest db ms e hm,
        rowsExtra_cons_err mE sE t c r rest e hm]
      rfl
    | ok b =>
      cases b with
      | false =>
        rw [runRows_cons_miss d mE sE t c r rest db ms hm,
          rowsExtra_cons_miss mE sE t c r rest hm]
        exact ih db ms
      | true =>
        cases hs : sE r.2 with
        | error e =>
          rw [runRows_cons_substErr d mE sE t c r rest db ms e hm hs,
            rowsExtra_cons_substErr mE sE t c r rest e hm hs]
          rfl
        | ok nv =>
          rw [runRows_cons_hit d mE sE t c r rest db ms nv hm hs,
            rowsExtra_cons_hit mE sE t c r rest nv hm hs]
          have key : ∀ db2 : List TableData,
              (runRows d mE sE t c rest db2 (ms ++ [(t, c, r.1)])).map (fun p => p.2)
                = ((rowsExtra mE sE t c rest).map
                    (fun ex => (t, c, r.1) :: ex)).map (fun ex => ms ++ ex) := by
            intro db2
            rw [ih db2 (ms ++ [(t, c, r.1)])]
            cases he : rowsExtra mE sE t c rest with
            | error e => simp [Except.map]
            | ok ex => simp [Except.map]
          cases d with
          | true => simpa using key db
          | false => simpa using key (updateCell db t c r.1 nv)

theorem dbWF_updateCell (db : List TableData) (t c : String) (rid : Nat) (v : Cell)
    (hwf : dbWF db) : dbWF (updateCell db t c rid v) := by
  intro tab htab r hr
  unfold updateCell at htab
  obtain ⟨tab0, htab0, hmap⟩ := List.mem_map.mp htab
  by_cases h : (tab0.name == t) = true
  · rw [if_pos h] at hmap
    rw [← hmap] at hr ⊢
    obtain ⟨r0, hr0, hrmap⟩ := List.mem_map.mp hr
    by_cases hrid : (r0.1 == rid) = true
    · rw [if_pos hrid] at hrmap
      rw [← hrmap]
      simpa [List.length_set] using hwf tab0 htab0 r0 hr0
    · rw [if_neg hrid] at hrmap
      rw [← hrmap]
      exact hwf tab0 htab0 r0 hr0
  · rw [if_neg h] at hmap
    rw [← hmap] at hr ⊢
    exact hwf tab0 htab0 r hr

theorem selectCol_updateCell (db : List TableData) (t c : String) (rid : Nat) (v : Cell)
    (t' c' : String) (hwf : dbWF db) (hne : ¬(t' = t ∧ c' = c)) :
    selectCol (updateCell db t c rid v) t' c' = selectCol db t' c' := by
  unfold selectCol updateCell
  rw [List.find?_map]
  have hpres : ((fun tb : TableData => tb.name == t') ∘ (fun tab =>
      if tab.name == t then
        TableData.mk tab.name tab.cols
          (tab.rows.map (fun r =>
            if r.1 == rid then (r.1, r.2.set (tab.cols.indexOf c) v) else r))
      else tab)) = fun tab : TableData => tab.name == t' := by
    funext tab
    by_cases h : (tab.name == t) = true
    · simp [Function.comp, h]
    · simp [Function.comp, h]
  rw [hpres]
  cases hf : db.find? (fun tab => tab.name == t') with
  | none => rfl
  | some tab =>
    rw [Option.map_some']
    by_cases h : (tab.name == t) = true
    · rw [if_pos h]
      dsimp only
      have ht't : t' = t := by
        have h1b := List.find?_some hf
        have h1 : tab.name = t' := eq_of_beq (by simpa using h1b)
        have h2 : tab.name = t := eq_of_beq h
        rw [← h1, h2]
      have hcne : c' ≠ c := fun hcc => hne ⟨ht't, hcc⟩
      rw [List.map_map]
      apply List.map_congr_left
      intro r hr
      simp only [Function.comp]
      by_cases hrid : (r.1 == rid) = true
      · rw [if_pos hrid]
        by_cases hcin : c ∈ tab.cols
        · have hij : tab.cols.indexOf c ≠ tab.cols.indexOf c' := by
            by_cases hcin' : c' ∈ tab.cols
            · intro heq
              exact hcne (((List.indexOf_inj hcin hcin').mp heq).symm)
            · have e1 : tab.cols.indexOf c' = tab.cols.length :=
                List.indexOf_eq_length.mpr hcin'
              have e2 : tab.cols.indexOf c < tab.cols.length :=
                List.indexOf_lt_length.mpr hcin
              omega
          rw [List.getD_eq_getElem?_getD, List.getD_eq_getElem?_getD,
            List.getElem?_set_ne hij]
        · have hmem : tab ∈ db := List.mem_of_find?_eq_some hf
          have hlen : r.2.length = tab.cols.length := hwf tab hmem r hr
          have e1 : tab.cols.indexOf c = tab.cols.length :=
            List.indexOf_eq_length.mpr hcin
          rw [List.set_eq_of_length_le (by omega)]
      · rw [if_neg hrid]
    · rw [if_neg h]

theorem except_map_eq_error {α β : Type} (f : α → β) (x : Except Unit α) (e : Unit) :
    x.map f = Except.error e ↔ x = Except.error e := by
  cases x <;> simp [Except.map]

theorem except_map_eq_ok {α β : Type} (f : α → β) (x : Except Unit α) (y : β) :
    x.map f = Except.ok y ↔ ∃ a, x = Except.ok a ∧ f a = y := by
  cases x <;> simp [Except.map]

theorem runRows_frame (mE : Cell → Except Unit Bool) (sE : Cell → Except Unit Cell)
    (t c : String) : ∀ (rows : List (Nat × Cell)) (db : List TableData)
      (ms : List MatchId) (db' : List TableData) (ms' : List MatchId),
    runRows false mE sE t c rows db ms = Except.ok (db', ms') → dbWF db →
      dbWF db'
      ∧ ∀ t' c', ¬(t' = t ∧ c' = c) → selectCol db' t' c' = selectCol db t' c' := by
  intro rows
  induction rows with
  | nil =>
    intro db ms db' ms' h hwf
    rw [runRows] at h
    have heq := Except.ok.inj h
    have hdb : db = db' := congrArg Prod.fst heq
    rw [← hdb]
    exact ⟨hwf, fun _ _ _ => rfl⟩
  | cons r rest ih =>
    intro db ms db' ms' h hwf
    cases hm : mE r.2 with
    | error e =>
      rw [runRows_cons_err false mE sE t c r rest db ms e hm] at h
      simp at h
    | ok b =>
      cases b with
      | false =>
        rw [runRows_cons_miss false mE sE t c r rest db ms hm] at h
        exact ih db ms db' ms' h hwf
      | true =>
        cases hs : sE r.2 with
        | error e =>
          rw [runRows_cons_substErr false mE sE t c r rest db ms e hm hs] at h
          simp at h
        | ok nv =>
          rw [runRows_cons_hit false mE sE t c r rest db ms nv hm hs] at h
          simp only [Bool.false_eq_true, if_false] at h
          have hwf2 := dbWF_updateCell db t c r.1 nv hwf
          obtain ⟨hwf', hframe⟩ :=
            ih (updateCell db t c r.1 nv) (ms ++ [(t, c, r.1)]) db' ms' h hwf2
          refine ⟨hwf', fun t' c' hne => ?_⟩
          rw [hframe t' c' hne, selectCol_updateCell db t c r.1 nv t' c' hwf hne]

theorem runCols_sim (mE : Cell → Except Unit Bool) (sE : Cell → Except Unit Cell)
    (t : String) : ∀ (cs : List String) (db db0 : List TableData) (ms : List MatchId)
      (k k' : Nat), dbWF db →
    (∀ c' ∈ cs, selectCol db t c' = selectCol db0 t c') → cs.Nodup →
    ((runCols false mE sE t cs db ms k).map (fun r => r.2.1)
        = (runCols true mE sE t cs db0 ms k').map (fun r => r.2.1))
    ∧ (∀ db' ms2 k2, runCols false mE sE t cs db ms k = Except.ok (db', ms2, k2) →
        dbWF db'
        ∧ ∀ t' c', ¬(t' = t ∧ c' ∈ cs) → selectCol db' t' c' = selectCol db t' c') := by
  intro cs
  induction cs with
  | nil =>
    intro db db0 ms k k' hwf hsel hnd
    constructor
    · rw [runCols, runCols]
      rfl
    · intro db' ms2 k2 h
      rw [runCols] at h
      have heq := Except.ok.inj h
      have hdb : db = db' := congrArg Prod.fst heq
      rw [← hdb]
      exact ⟨hwf, fun _ _ _ => rfl⟩
  | cons c cs ih =>
    intro db db0 ms k k' hwf hsel hnd
    have hselc : selectCol db t c = selectCol db0 t c := hsel c (List.mem_cons_self _ _)
    have hmr := runRows_matches false mE sE t c (selectCol db t c) db ms
    have hmd := runRows_matches true mE sE t c (selectCol db0 t c) db0 ms
    rw [← hselc] at hmd
    cases he : rowsExtra mE sE t c (selectCol db t c) with
    | error e =>
      rw [he] at hmr hmd
      have hr : runRows false mE sE t c (selectCol db t c) db ms = Except.error e := by
        rw [← except_map_eq_error (fun p : List TableData × List MatchId => p.2)]
        rw [hmr]
        rfl
      have hd : runRows true mE sE t c (selectCol db0 t c) db0 ms = Except.error e := by
        rw [← except_map_eq_error (fun p : List TableData × List MatchId => p.2)]
        rw [← hselc, hmd]
        rfl
      constructor
      · rw [runCols, runCols, hr, hd]
      · intro db' ms2 k2 h
        rw [runCols, hr] at h
        simp at h
    | ok ex =>
      rw [he] at hmr hmd
      obtain ⟨pr, hpr, hpr2⟩ := (except_map_eq_ok _ _ _).mp (by rw [hmr]; rfl)
      obtain ⟨pd, hpd, hpd2⟩ := (except_map_eq_ok _ _ _).mp (by rw [hmd]; rfl)
      obtain ⟨dbR, msR⟩ := pr
      obtain ⟨dbD, msD⟩ := pd
      simp only at hpr2 hpd2
      have hdbD : dbD = db0 := runRows_dry mE sE t c _ db0 ms (dbD, msD) hpd
      obtain ⟨hwfR, hframeR⟩ := runRows_frame mE sE t c _ db ms dbR msR hpr hwf
      have hselcs : ∀ c' ∈ cs, selectCol dbR t c' = selectCol db0 t c' := by
        intro c' hc'
        have hcne : ¬(t = t ∧ c' = c) := by
          rintro ⟨-, rfl⟩
          exact (List.nodup_cons.mp hnd).1 hc'
        rw [hframeR t c' hcne]
        exact hsel c' (List.mem_cons_of_mem _ hc')
      have hndcs : cs.Nodup := (List.nodup_cons.mp hnd).2
      obtain ⟨ihmap, ihframe⟩ :=
        ih dbR db0 (ms ++ ex) (if false then k else k + 1) k' hwfR hselcs hndcs
      constructor
      · rw [hselc] at hpd
        rw [runCols, runCols, hpr, hpd]
        rw [hpr2, hpd2, hdbD]
        simpa using ihmap
      · intro db' ms2 k2 h
        rw [runCols, hpr, hpr2] at h
        have h2 : runCols false mE sE t cs dbR (ms ++ ex) (if false then k else k + 1)
            = Except.ok (db', ms2, k2) := h
        obtain ⟨hwf', hframe'⟩ := ihframe db' ms2 k2 h2
        refine ⟨hwf', fun t' c' hne => ?_⟩
        have hne1 : ¬(t' = t ∧ c' ∈ cs) := fun hx =>
          hne ⟨hx.1, List.mem_cons_of_mem _ hx.2⟩
        have hne2 : ¬(t' = t ∧ c' = c) := fun hx =>
          hne ⟨hx.1, hx.2 ▸ List.mem_cons_self _ _⟩
        rw [hframe' t' c' hne1, hframeR t' c' hne2]

theorem runTables_sim (mE : Cell → Except Unit Bool) (sE : Cell → Except Unit Cell) :
    ∀ (rep : Report) (db db0 : List TableData) (ms : List MatchId) (k k' : Nat),
    dbWF db →
    (∀ p ∈ rep, ∀ c ∈ p.2, selectCol db p.1 c = selectCol db0 p.1 c) →
    (reportPairs rep).Nodup →
    (runTables false mE sE rep db ms k).map (fun r => r.2.1)
      = (runTables true mE sE rep db0 ms k').map (fun r => r.2.1) := by
  intro rep
  induction rep with
  | nil =>
    intro db db0 ms k k' hwf hsel hnd
    rw [runTables, runTables]
    rfl
  | cons tc rest ih =>
    obtain ⟨t, cs⟩ := tc
    intro db db0 ms k k' hwf hsel hnd
    have hpairs : reportPairs ((t, cs) :: rest)
        = cs.map (fun c => (t, c)) ++ reportPairs rest := by
      simp [reportPairs]
    rw [hpairs] at hnd
    have hdisj := List.disjoint_of_nodup_append hnd
    have hndcs : cs.Nodup := List.Nodup.of_map _ (List.Nodup.of_append_left hnd)
    have hndrest : (reportPairs rest).Nodup := List.Nodup.of_append_right hnd
    have hselcs : ∀ c ∈ cs, selectCol db t c = selectCol db0 t c := by
      intro c hc
      exact hsel (t, cs) (List.mem_cons_self _ _) c hc
    obtain ⟨simmap, simframe⟩ :=
      runCols_sim mE sE t cs db db0 ms k k' hwf hselcs hndcs
    cases hcf : runCols false mE sE t cs db ms k with
    | error e =>
      have hcd : runCols true mE sE t cs db0 ms k' = Except.error e := by
        rw [← except_map_eq_error (fun r : List TableData × List MatchId × Nat => r.2.1)]
        rw [← simmap, hcf]
        rfl
      rw [runTables, runTables, hcf, hcd]
    | ok p =>
      obtain ⟨db1, ms1, k1⟩ := p
      have hmap1 : (runCols true mE sE t cs db0 ms k').map (fun r => r.2.1)
          = Except.ok ms1 := by
        rw [← simmap, hcf]
        rfl
      obtain ⟨pd, hpd, hpd2⟩ := (except_map_eq_ok _ _ _).mp hmap1
      obtain ⟨dbD, msD, kD⟩ := pd
      simp only at hpd2
      obtain ⟨hdbD, -⟩ := runCols_dry mE sE t cs db0 ms k' (dbD, msD, kD) hpd
      simp only at hdbD
      obtain ⟨hwf1, hframe1⟩ := simframe db1 ms1 k1 hcf
      have hselrest : ∀ p ∈ rest, ∀ c ∈ p.2, selectCol db1 p.1 c = selectCol db0 p.1 c := by
        intro p hp c hc
        have hnotin : ¬(p.1 = t ∧ c ∈ cs) := by
          rintro ⟨rfl, hcin⟩
          have hmem1 : (p.1, c) ∈ cs.map (fun c => (p.1, c)) :=
            List.mem_map.mpr ⟨c, hcin, rfl⟩
          have hmem2 : (p.1, c) ∈ reportPairs rest := by
            simp only [reportPairs, List.mem_flatMap]
            exact ⟨p, hp, List.mem_map.mpr ⟨c, hc, rfl⟩⟩
          exact hdisj hmem1 hmem2
        rw [hframe1 p.1 c hnotin]
        exact hsel p (List.mem_cons_of_mem _ hp) c hc
      rw [runTables, runTables, hcf, hpd]
      have hih := ih db1 db0 ms1 k1 kD hwf1 hselrest hndrest
      rw [hpd2, hdbD]
      simpa using hih

/-- C6: dry-run frame property of the rewrite pass.  For every matcher,
substituter, report and well-formed database whose flagged (table,
column) pairs are distinct: a dry run performs no update and no commit —
it returns the database unchanged and a commit count of zero — and the
sequence of matched cells of the real run is identical to that of the
dry run on the same initial state (including whether the run raises). -/
theorem startReplacement_dryRun_frame (mE : Cell → Except Unit Bool)
    (sE : Cell → Except Unit Cell) (report : Report) (db : List TableData)
    (hwf : dbWF db) (hnd : (reportPairs report).Nodup) :
    (∀ res, startReplacement true mE sE report db = Except.ok res →
        res.1 = db ∧ res.2.2 = 0)
    ∧ (startReplacement false mE sE report db).map (fun r => r.2.1)
        = (startReplacement true mE sE report db).map (fun r => r.2.1) := by
  constructor
  · intro res h
    exact runTables_dry mE sE report db [] 0 res h
  · exact runTables_sim mE sE report db db [] 0 0 hwf (fun p hp c hc => rfl) hnd

theorem startReplacement_dryRun_frame_witness :
    (∀ res, startReplacement true (searchValuePlainCell true "a".data)
        (substituteValuePlainCell true "a".data "b".data) [("T", ["c1"])]
        [TableData.mk "T" ["c1"] [(1, [Cell.str "a".data])]] = Except.ok res →
        res.1 = [TableData.mk "T" ["c1"] [(1, [Cell.str "a".data])]] ∧ res.2.2 = 0)
    ∧ (startReplacement false (searchValuePlainCell true "a".data)
        (substituteValuePlainCell true "a".data "b".data) [("T", ["c1"])]
        [TableData.mk "T" ["c1"] [(1, [Cell.str "a".data])]]).map (fun r => r.2.1)
      = (startReplacement true (searchValuePlainCell true "a".data)
        (substituteValuePlainCell true "a".data "b".data) [("T", ["c1"])]
        [TableData.mk "T" ["c1"] [(1, [Cell.str "a".data])]]).map (fun r => r.2.1) :=
  startReplacement_dryRun_frame (searchValuePlainCell true "a".data)
    (substituteValuePlainCell true "a".data "b".data) [("T", ["c1"])]
    [TableData.mk "T" ["c1"] [(1, [Cell.str "a".data])]] (by decide) (by decide)

theorem substituteValuePlain_isSome (ic : Bool) (pat repl v : List Char) (hpat : pat ≠ []) :
    (substituteValuePlain ic pat repl v).isSome = true := by
  cases ic with
  | true => simp [substituteValuePlain]
  | false =>
    simp only [substituteValuePlain, Bool.false_eq_true, if_false]
    exact substLoop_isSome pat repl v hpat (v.length + 1) 0 [] (by omega)

theorem except_isOk_of_map_eq {α β γ : Type} (f : α → γ) (g : β → γ)
    (x : Except Unit α) (y : Except Unit β) (h : x.map f = y.map g) :
    (∃ a, x = Except.ok a) ↔ (∃ b, y = Except.ok b) := by
  cases x with
  | error e =>
    cases y with
    | error e2 => simp
    | ok b => simp [Except.map] at h
  | ok a =>
    cases y with
    | error e2 => simp [Except.map] at h
    | ok b => simp

theorem rowsExtra_plain_ok (ic : Bool) (pat repl : List Char) (hpat : pat ≠ [])
    (t c : String) : ∀ rows : List (Nat × Cell),
    (∃ ex, rowsExtra (searchValuePlainCell ic pat)
        (substituteValuePlainCell ic pat repl) t c rows = Except.ok ex)
    ↔ ∀ r ∈ rows, ∃ s, r.2 = Cell.str s := by
  intro rows
  induction rows with
  | nil =>
    constructor
    · intro _ r hr
      exact absurd hr (List.not_mem_nil _)
    · intro _
      exact ⟨[], by rw [rowsExtra]⟩
  | cons r rest ih =>
    cases hcell : r.2 with
    | str s =>
      have hm : searchValuePlainCell ic pat r.2
          = Except.ok (searchValuePlain ic pat s) := by
        rw [hcell]
        rfl
      by_cases hb : searchValuePlain ic pat s = true
      · obtain ⟨sn, hsn⟩ := Option.isSome_iff_exists.mp
          (substituteValuePlain_isSome ic pat repl s hpat)
        have hs : substituteValuePlainCell ic pat repl r.2 = Except.ok (Cell.str sn) := by
          rw [hcell]
          simp [substituteValuePlainCell, hsn]
        rw [rowsExtra_cons_hit _ _ t c r rest (Cell.str sn) (by rw [hm, hb]) hs]
        constructor
        · rintro ⟨ex, hex⟩
          obtain ⟨ex0, hex0, -⟩ := (except_map_eq_ok _ _ _).mp hex
          intro r' hr'
          rcases List.mem_cons.mp hr' with heq | hmem
          · rw [heq, hcell]
            exact ⟨s, rfl⟩
          · exact (ih.mp ⟨ex0, hex0⟩) r' hmem
        · intro hall
          obtain ⟨ex0, hex0⟩ := ih.mpr (fun r' hr' => hall r' (List.mem_cons_of_mem _ hr'))
          exact ⟨(t, c, r.1) :: ex0, by rw [hex0]; rfl⟩
      · have hbf : searchValuePlain ic pat s = false := by
          cases hx : searchValuePlain ic pat s with
          | true => exact absurd hx hb
          | false => rfl
        rw [rowsExtra_cons_miss _ _ t c r rest (by rw [hm, hbf])]
        constructor
        · intro hex r' hr'
          rcases List.mem_cons.mp hr' with heq | hmem
          · rw [heq, hcell]
            exact ⟨s, rfl⟩
          · exact (ih.mp hex) r' hmem
        · intro hall
          exact ih.mpr (fun r' hr' => hall r' (List.mem_cons_of_mem _ hr'))
    | intVal n =>
      have hm : searchValuePlainCell ic pat r.2 = Except.error () := by rw [hcell]; rfl
      rw [rowsExtra_cons_err _ _ t c r rest () hm]
      constructor
      · rintro ⟨ex, hex⟩
        simp at hex
      · intro hall
        obtain ⟨s, hs⟩ := hall r (List.mem_cons_self _ _)
        rw [hcell] at hs
        simp at hs
    | blob b2 =>
      have hm : searchValuePlainCell ic pat r.2 = Except.error () := by rw [hcell]; rfl
      rw [rowsExtra_cons_err _ _ t c r rest () hm]
      constructor
      · rintro ⟨ex, hex⟩
        simp at hex
      · intro hall
        obtain ⟨s, hs⟩ := hall r (List.mem_cons_self _ _)
        rw [hcell] at hs
        simp at hs
    | null =>
      have hm : searchValuePlainCell ic pat r.2 = Except.error () := by rw [hcell]; rfl
      rw [rowsExtra_cons_err _ _ t c r rest () hm]
      constructor
      · rintro ⟨ex, hex⟩
        simp at hex
      · intro hall
        obtain ⟨s, hs⟩ := hall r (List.mem_cons_self _ _)
        rw [hcell] at hs
        simp at hs

theorem runCols_dry_ok_iff (mE : Cell → Except Unit Bool) (sE : Cell → Except Unit Cell)
    (t : String) : ∀ (cs : List String) (db : List TableData) (ms : List MatchId) (k : Nat),
    (∃ res, runCols true mE sE t cs db ms k = Except.ok res)
    ↔ ∀ c ∈ cs, ∃ ex, rowsExtra mE sE t c (selectCol db t c) = Except.ok ex := by
  intro cs
  induction cs with
  | nil =>
    intro db ms k
    constructor
    · intro _ c hc
      exact absurd hc (List.not_mem_nil _)
    · intro _
      exact ⟨(db, ms, k), by rw [runCols]⟩
  | cons c cs ih =>
    intro db ms k
    have hmr := runRows_matches true mE sE t c (selectCol db t c) db ms
    cases hr : runRows true mE sE t c (selectCol db t c) db ms with
    | error e =>
      rw [hr] at hmr
      have hre : rowsExtra mE sE t c (selectCol db t c) = Except.error e := by
        rw [← except_map_eq_error (fun ex : List MatchId => ms ++ ex), ← hmr]
        rfl
      constructor
      · rintro ⟨res, hres⟩
        rw [runCols, hr] at hres
        simp at hres
      · intro hall
        obtain ⟨ex, hex⟩ := hall c (List.mem_cons_self _ _)
        rw [hre] at hex
        simp at hex
    | ok p =>
      obtain ⟨db1, ms1⟩ := p
      rw [hr] at hmr
      have hdb1 : db1 = db := runRows_dry mE sE t c _ db ms (db1, ms1) hr
      have hok : ∃ ex, rowsExtra mE sE t c (selectCol db t c) = Except.ok ex := by
        obtain ⟨ex, hex, -⟩ := (except_map_eq_ok _ _ _).mp hmr.symm
        exact ⟨ex, hex⟩
      constructor
      · rintro ⟨res, hres⟩
        rw [runCols, hr] at hres
        intro c' hc'
        rcases List.mem_cons.mp hc' with heq | hmem
        · rw [heq]
          exact hok
        · have : ∃ res2, runCols true mE sE t cs db1 ms1 k = Except.ok res2 := by
            refine ⟨res, ?_⟩
            simpa using hres
          rw [hdb1] at this
          exact (ih db ms1 k).mp this c' hmem
      · intro hall
        have hrest : ∀ c' ∈ cs, ∃ ex, rowsExtra mE sE t c' (selectCol db t c') = Except.ok ex :=
          fun c' hc' => hall c' (List.mem_cons_of_mem _ hc')
        obtain ⟨res2, hres2⟩ := (ih db ms1 k).mpr hrest
        refine ⟨res2, ?_⟩
        rw [runCols, hr]
        rw [← hdb1] at hres2
        simpa using hres2

theorem runTables_dry_ok_iff (mE : Cell → Except Unit Bool) (sE : Cell → Except Unit Cell) :
    ∀ (rep : Report) (db : List TableData) (ms : List MatchId) (k : Nat),
    (∃ res, runTables true mE sE rep db ms k = Except.ok res)
    ↔ ∀ p ∈ rep, ∀ c ∈ p.2, ∃ ex, rowsExtra mE sE p.1 c (selectCol db p.1 c) = Except.ok ex := by
  intro rep
  induction rep with
  | nil =>
    intro db ms k
    constructor
    · intro _ p hp
      exact absurd hp (List.not_mem_nil _)
    · intro _
      exact ⟨(db, ms, k), by rw [runTables]⟩
  | cons tc rest ih =>
    intro db ms k
    cases hc : runCols true mE sE tc.1 tc.2 db ms k with
    | error e =>
      constructor
      · rintro ⟨res, hres⟩
        rw [runTables, hc] at hres
        simp at hres
      · intro hall
        have hcols : ∀ c ∈ tc.2, ∃ ex, rowsExtra mE sE tc.1 c (selectCol db tc.1 c)
            = Except.ok ex := fun c hcc => hall tc (List.mem_cons_self _ _) c hcc
        obtain ⟨res, hres⟩ := (runCols_dry_ok_iff mE sE tc.1 tc.2 db ms k).mpr hcols
        rw [hc] at hres
        simp at hres
    | ok p =>
      obtain ⟨db1, ms1, k1⟩ := p
      obtain ⟨hdb1, -⟩ := runCols_dry mE sE tc.1 tc.2 db ms k (db1, ms1, k1) hc
      simp only at hdb1
      have hcols : ∀ c ∈ tc.2, ∃ ex, rowsExtra mE sE tc.1 c (selectCol db tc.1 c)
          = Except.ok ex :=
        (runCols_dry_ok_iff mE sE tc.1 tc.2 db ms k).mp ⟨(db1, ms1, k1), hc⟩
      constructor
      · rintro ⟨res, hres⟩
        rw [runTables, hc] at hres
        intro p hp c hcc
        rcases List.mem_cons.mp hp with heq | hmem
        · rw [heq]
          exact hcols c (by rw [heq] at hcc; exact hcc)
        · have hrest : ∃ res2, runTables true mE sE rest db1 ms1 k1 = Except.ok res2 :=
            ⟨res, by simpa using hres⟩
          rw [hdb1] at hrest
          exact (ih db ms1 k1).mp hrest p hmem c hcc
      · intro hall
        have hrest : ∀ p ∈ rest, ∀ c ∈ p.2,
            ∃ ex, rowsExtra mE sE p.1 c (selectCol db p.1 c) = Except.ok ex :=
          fun p hp c hcc => hall p (List.mem_cons_of_mem _ hp) c hcc
        obtain ⟨res2, hres2⟩ := (ih db ms1 k1).mpr hrest
        refine ⟨res2, ?_⟩
        rw [runTables, hc]
        rw [← hdb1] at hres2
        simpa using hres2

/-- C9: the substitution pass applies the configured Matcher to every
cell of every flagged column WITHOUT the `isinstance(cell, str)` guard
that the scan pass uses, so with the plain-mode matcher the rewrite pass
completes without an exception precisely when every cell of every
flagged column is a string; a single non-string cell in a flagged column
makes the plain Matcher raise (`Except.error`) on that cell instead of
skipping it. -/
theorem startReplacement_plain_requires_string_cells (ic : Bool) (pat repl : List Char)
    (report : Report) (db : List TableData) (hpat : pat ≠ []) (hwf : dbWF db)
    (hnd : (reportPairs report).Nodup) :
    (∃ res, startReplacement false (searchValuePlainCell ic pat)
        (substituteValuePlainCell ic pat repl) report db = Except.ok res)
    ↔ ∀ p ∈ report, ∀ c ∈ p.2, ∀ r ∈ selectCol db p.1 c, ∃ s, r.2 = Cell.str s := by
  have hsim := runTables_sim (searchValuePlainCell ic pat)
    (substituteValuePlainCell ic pat repl) report db db ([] : List MatchId) 0 0 hwf
    (fun p hp c hc => rfl) hnd
  rw [startReplacement]
  rw [except_isOk_of_map_eq _ _ _ _ hsim]
  rw [runTables_dry_ok_iff]
  constructor
  · intro hall p hp c hc
    exact (rowsExtra_plain_ok ic pat repl hpat p.1 c (selectCol db p.1 c)).mp
      (hall p hp c hc)
  · intro hall p hp c hc
    exact (rowsExtra_plain_ok ic pat repl hpat p.1 c (selectCol db p.1 c)).mpr
      (hall p hp c hc)

theorem startReplacement_plain_requires_string_cells_witness :
    (∃ res, startReplacement false (searchValuePlainCell false "a".data)
        (substituteValuePlainCell false "a".data "b".data) [("T", ["c1"])]
        [TableData.mk "T" ["c1"] [(1, [Cell.str "a".data])]] = Except.ok res)
    ∧ ¬(∃ res, startReplacement false (searchValuePlainCell false "a".data)
        (substituteValuePlainCell false "a".data "b".data) [("T", ["c1"])]
        [TableData.mk "T" ["c1"] [(1, [Cell.intVal 7])]] = Except.ok res) := by
  constructor
  · refine (startReplacement_plain_requires_string_cells false "a".data "b".data
      [("T", ["c1"])] [TableData.mk "T" ["c1"] [(1, [Cell.str "a".data])]]
      (by decide) (by decide) (by decide)).mpr ?_
    intro p hp c hc r hr
    have hp' : p = ("T", ["c1"]) := List.mem_singleton.mp hp
    rw [hp'] at hc hr
    have hc' : c = "c1" := List.mem_singleton.mp hc
    rw [hc'] at hr
    have hsel : selectCol [TableData.mk "T" ["c1"] [(1, [Cell.str "a".data])]] "T" "c1"
        = [(1, Cell.str "a".data)] := by decide
    rw [hsel] at hr
    have hr' : r = (1, Cell.str "a".data) := List.mem_singleton.mp hr
    rw [hr']
    exact ⟨"a".data, rfl⟩
  · intro hok
    have hall := (startReplacement_plain_requires_string_cells false "a".data "b".data
      [("T", ["c1"])] [TableData.mk "T" ["c1"] [(1, [Cell.intVal 7])]]
      (by decide) (by decide) (by decide)).mp hok
    have hsel : selectCol [TableData.mk "T" ["c1"] [(1, [Cell.intVal 7])]] "T" "c1"
        = [(1, Cell.intVal 7)] := by decide
    have := hall ("T", ["c1"]) (List.mem_singleton.mpr rfl) "c1"
      (List.mem_singleton.mpr rfl) (1, Cell.intVal 7) (by rw [hsel]; exact List.mem_singleton.mpr rfl)
    obtain ⟨s, hs⟩ := this
    simp at hs

/-- An abstract compiled regular expression: what `re.compile` returns,
as consumed by the engine — a match test (`pattern.search(value)`
truthiness, scheduleConverter.py:254-261) and a substitution
(`re.sub(pattern, replacement, value)`, scheduleConverter.py:289-299).
The `re` module itself is external to the repository. -/
structure RegexOps where
  search : List Char → Bool
  sub : List Char → List Char

/-- `searchValueRegex` applied to a raw cell: raises on non-strings. -/
def searchValueRegexCell (r : RegexOps) : Cell → Except Unit Bool
  | Cell.str v => Except.ok (r.search v)
  | _ => Except.error ()

/-- `substituteValueRegex` applied to a raw cell: raises on non-strings. -/
def substituteValueRegexCell (r : RegexOps) : Cell → Except Unit Cell
  | Cell.str v => Except.ok (Cell.str (r.sub v))
  | _ => Except.error ()

/-- `EWDatabaseRewriter.runReplacement` (scheduleConverter.py:139-152):
scan first, then rewrite only when at least one occurrence was found. -/
def runReplacement (matchStr : List Char → Bool) (matchE : Cell → Except Unit Bool)
    (substE : Cell → Except Unit Cell) (dryRun : Bool) (db : List TableData) :
    Except Unit (List TableData × List MatchId × Nat) × (Report × Nat) :=
  let scanned := getTablesWhereStringExists matchStr db
  (if scanned.2 > 0 then startReplacement dryRun matchE substE scanned.1 db
   else Except.ok (db, [], 0), scanned)

/-- `EWDatabaseRewriter.__init__` (scheduleConverter.py:99-137): in regex
mode the search pattern is compiled FIRST (lines 123-130, `re.compile`,
with `re.IGNORECASE` folded into the abstract `compile` argument); a
malformed pattern raises there (outer `Except.error`, the
ConfigurationError), before `self.runReplacement()` (line 137) ever
enumerates a table or reads a cell.  In plain mode no compilation
happens and construction cannot raise. -/
def ewDatabaseRewriterInit (useregex ignorecase dryRun : Bool)
    (compile : List Char → Bool → Option RegexOps) (search replace : List Char)
    (db : List TableData) :
    Except Unit (Except Unit (List TableData × List MatchId × Nat) × (Report × Nat)) :=
  if useregex then
    match compile search ignorecase with
    | none => Except.error ()
    | some r =>
      Except.ok (runReplacement r.search (searchValueRegexCell r)
        (substituteValueRegexCell r) dryRun db)
  else
    Except.ok (runReplacement (searchValuePlain ignorecase search)
      (searchValuePlainCell ignorecase search)
      (substituteValuePlainCell ignorecase search replace) dryRun db)

/-- C8: fail-fast on a malformed regex.  In regex mode the pattern is
compiled at construction, before any table is enumerated or cell read:
if compilation fails the whole run aborts with the construction error
and no scan result exists; if it succeeds, the result carries the scan
of the untouched input database (scanning starts only after a successful
compile); in plain mode construction never raises. -/
theorem ewDatabaseRewriterInit_failfast (ignorecase dryRun : Bool)
    (compile : List Char → Bool → Option RegexOps) (search replace : List Char)
    (db : List TableData) :
    (compile search ignorecase = none →
      ewDatabaseRewriterInit true ignorecase dryRun compile search replace db
        = Except.error ())
    ∧ (∀ r, compile search ignorecase = some r →
      ∃ runRes, ewDatabaseRewriterInit true ignorecase dryRun compile search replace db
        = Except.ok (runRes, getTablesWhereStringExists r.search db))
    ∧ (∃ res, ewDatabaseRewriterInit false ignorecase dryRun compile search replace db
        = Except.ok res) := by
  refine ⟨?_, ?_, ?_⟩
  · intro hbad
    simp [ewDatabaseRewriterInit, hbad]
  · intro r hr
    refine ⟨(runReplacement r.search (searchValueRegexCell r)
      (substituteValueRegexCell r) dryRun db).1, ?_⟩
    simp [ewDatabaseRewriterInit, hr, runReplacement]
  · refine ⟨runReplacement (searchValuePlain ignorecase search)
      (searchValuePlainCell ignorecase search)
      (substituteValuePlainCell ignorecase search replace) dryRun db, ?_⟩
    simp [ewDatabaseRewriterInit]

theorem ewDatabaseRewriterInit_failfast_witness :
    ewDatabaseRewriterInit true false false (fun _ _ => none) "(".data "x".data []
      = Except.error () :=
  (ewDatabaseRewriterInit_failfast false false (fun _ _ => none) "(".data "x".data []).1 rfl

theorem searchValuePlain_contract_witness :
    searchValuePlain false "rea".data "great".data = true
    ∧ searchValuePlain true "GREAT".data "How Great Thou Art".data = true := by
  constructor
  · exact (searchValuePlain_contract "rea".data "great".data).1.mpr
      ⟨"g".data, "t".data, by decide⟩
  · exact (searchValuePlain_contract "GREAT".data "How Great Thou Art".data).2.mpr
      ⟨"how ".data, " thou art".data, by decide⟩

/-- `EWDatabaseRewriter.printDifferenceRegex` (scheduleConverter.py:343-374),
the `for m in matches` loop over `search.finditer(value)`: `matches`
abstracts the finditer result as (start, end) spans and `sub1` abstracts
`re.sub(search, replace, ·)` applied to the isolated matched text (only
its length is used).  Unlike the plain renderer, the two suffix appends
follow the loop (lines 369-370), so they run exactly once. -/
def diffRegexLoop (sub1 : List Char → List Char) (value newValue : List Char) :
    List (Nat × Nat) → Nat → Int → List (Bool × List Char) → List (Bool × List Char) →
      List (Bool × List Char) × List (Bool × List Char)
  | [], lastIndex, disc, original, marked =>
    (original ++ [(false, pySlice value (lastIndex : Int) (value.length : Int))],
     marked ++ [(false, pySlice newValue ((lastIndex : Int) + disc) (newValue.length : Int))])
  | m :: rest, lastIndex, disc, original, marked =>
    diffRegexLoop sub1 value newValue rest m.2
      (disc + ((sub1 (pySlice value (m.1 : Int) (m.2 : Int))).length : Int)
        - ((m.2 : Int) - (m.1 : Int)))
      (original ++ [(false, pySlice value (lastIndex : Int) (m.1 : Int)),
                    (true, pySlice value (m.1 : Int) (m.2 : Int))])
      (marked ++ [(false, pySlice newValue ((lastIndex : Int) + disc) ((m.1 : Int) + disc)),
                  (true, pySlice newValue ((m.1 : Int) + disc)
                    ((m.1 : Int) + disc
                      + ((sub1 (pySlice value (m.1 : Int) (m.2 : Int))).length : Int)))])

/-- `EWDatabaseRewriter.printDifferenceRegex`: run the marking loop from
cursor 0, discrepancy 0, empty span lists. -/
def printDifferenceRegex (sub1 : List Char → List Char) (value newValue : List Char)
    (mspans : List (Nat × Nat)) : List (Bool × List Char) × List (Bool × List Char) :=
  diffRegexLoop sub1 value newValue mspans 0 0 [] []

/-- The finditer spans are in left-to-right non-overlapping order
starting no earlier than the given cursor. -/
def SpansSorted : Nat → List (Nat × Nat) → Prop
  | _, [] => True
  | l, m :: rest => l ≤ m.1 ∧ m.1 ≤ m.2 ∧ SpansSorted m.2 rest

theorem listSlice_tile (s : List Char) (a b c : Nat) (h1 : a ≤ b) (h2 : b ≤ c) :
    listSlice s a b ++ listSlice s b c = listSlice s a c := by
  unfold listSlice
  by_cases hab : a ≤ (s.take b).length
  · have h3 : s.take b = (s.take c).take b := by
      rw [List.take_take, min_eq_left h2]
    have h4 : s.take c = s.take b ++ (s.take c).drop b := by
      conv_lhs => rw [← List.take_append_drop b (s.take c)]
      rw [← h3]
    calc (s.take b).drop a ++ (s.take c).drop b
        = ((s.take b) ++ (s.take c).drop b).drop a := by
          rw [List.drop_append_of_le_length hab]
      _ = (s.take c).drop a := by rw [← h4]
  · push_neg at hab
    have hlb : (s.take b).length = min b s.length := List.length_take b s
    have hsl : s.length < a := by
      rw [hlb] at hab
      omega
    have e1 : (s.take b).drop a = [] := List.drop_eq_nil_of_le (by omega)
    have e2 : (s.take c).drop b = [] := by
      apply List.drop_eq_nil_of_le
      have := List.length_take c s
      omega
    have e3 : (s.take c).drop a = [] := by
      apply List.drop_eq_nil_of_le
      have := List.length_take c s
      omega
    rw [e1, e2, e3]
    rfl

theorem pySlice_eq_listSlice (l : List Char) (a b : Int) (ha : 0 ≤ a) (hb : 0 ≤ b) :
    pySlice l a b = listSlice l a.toNat b.toNat := by
  unfold pySlice pyIdx listSlice
  rw [if_neg (not_lt.mpr ha), if_neg (not_lt.mpr hb)]
  have htake : l.take (min b.toNat l.length) = l.take b.toNat := by
    rcases le_total b.toNat l.length with h | h
    · rw [min_eq_left h]
    · rw [min_eq_right h, List.take_of_length_le h, List.take_of_length_le (le_refl _)]
  rw [htake]
  rcases le_total a.toNat l.length with h | h
  · rw [min_eq_left h]
  · rw [min_eq_right h]
    have hl1 : (l.take b.toNat).length ≤ l.length := by
      have := List.length_take b.toNat l
      omega
    rw [List.drop_eq_nil_of_le hl1, List.drop_eq_nil_of_le (by omega)]

theorem listSlice_tile_to_end (s : List Char) (a b : Nat) (h1 : a ≤ b) :
    listSlice s a b ++ listSlice s b s.length = listSlice s a s.length := by
  rcases le_total b s.length with h | h
  · exact listSlice_tile s a b s.length h1 h
  · have e1 : listSlice s a b = listSlice s a s.length := by
      unfold listSlice
      rw [List.take_of_length_le h, List.take_of_length_le (le_refl _)]
    have e2 : listSlice s b s.length = [] := by
      unfold listSlice
      apply List.drop_eq_nil_of_le
      have := List.length_take s.length s
      omega
    rw [e1, e2, List.append_nil]

theorem spanConcat_append (xs ys : List (Bool × List Char)) :
    spanConcat (xs ++ ys) = spanConcat xs ++ spanConcat ys := by
  simp [spanConcat]

theorem diffRegexLoop_concat (sub1 : List Char → List Char) (value newValue : List Char) :
    ∀ (mspans : List (Nat × Nat)) (lastIndex : Nat) (disc : Int)
      (original marked : List (Bool × List Char)),
    SpansSorted lastIndex mspans → 0 ≤ (lastIndex : Int) + disc →
    spanConcat (diffRegexLoop sub1 value newValue mspans lastIndex disc original marked).1
        = spanConcat original ++ listSlice value lastIndex value.length
    ∧ spanConcat (diffRegexLoop sub1 value newValue mspans lastIndex disc original marked).2
        = spanConcat marked
          ++ listSlice newValue ((lastIndex : Int) + disc).toNat newValue.length := by
  intro mspans
  induction mspans with
  | nil =>
    intro l d original marked hs hd
    rw [diffRegexLoop]
    constructor
    · rw [spanConcat_append]
      have hsl : pySlice value (l : Int) (value.length : Int)
          = listSlice value l value.length := by
        rw [pySlice_eq_listSlice value (l : Int) (value.length : Int)
          (Int.natCast_nonneg l) (Int.natCast_nonneg value.length)]
        simp
      rw [hsl]
      simp [spanConcat]
    · rw [spanConcat_append]
      have hsl : pySlice newValue ((l : Int) + d) (newValue.length : Int)
          = listSlice newValue ((l : Int) + d).toNat newValue.length := by
        rw [pySlice_eq_listSlice newValue ((l : Int) + d) (newValue.length : Int)
          hd (Int.natCast_nonneg newValue.length)]
        simp
      rw [hsl]
      simp [spanConcat]
  | cons m rest ih =>
    intro l d original marked hs hd
    obtain ⟨h1, h2, hrest⟩ := hs
    have hsub : (0 : Int) ≤ ((sub1 (pySlice value (m.1 : Int) (m.2 : Int))).length : Int) :=
      Int.natCast_nonneg _
    have hd' : 0 ≤ (m.2 : Int)
        + (d + ((sub1 (pySlice value (m.1 : Int) (m.2 : Int))).length : Int)
          - ((m.2 : Int) - (m.1 : Int))) := by
      have hcast : (l : Int) ≤ (m.1 : Int) := Int.ofNat_le.mpr h1
      omega
    rw [diffRegexLoop]
    obtain ⟨ihl, ihr⟩ := ih m.2
      (d + ((sub1 (pySlice value (m.1 : Int) (m.2 : Int))).length : Int)
        - ((m.2 : Int) - (m.1 : Int)))
      (original ++ [(false, pySlice value (l : Int) (m.1 : Int)),
                    (true, pySlice value (m.1 : Int) (m.2 : Int))])
      (marked ++ [(false, pySlice newValue ((l : Int) + d) ((m.1 : Int) + d)),
                  (true, pySlice newValue ((m.1 : Int) + d)
                    ((m.1 : Int) + d
                      + ((sub1 (pySlice value (m.1 : Int) (m.2 : Int))).length : Int)))])
      hrest hd'
    constructor
    · rw [ihl, spanConcat_append]
      have e1 : pySlice value (l : Int) (m.1 : Int) = listSlice value l m.1 := by
        rw [pySlice_eq_listSlice value (l : Int) (m.1 : Int)
          (Int.natCast_nonneg l) (Int.natCast_nonneg m.1)]
        simp
      have e2 : pySlice value (m.1 : Int) (m.2 : Int) = listSlice value m.1 m.2 := by
        rw [pySlice_eq_listSlice value (m.1 : Int) (m.2 : Int)
          (Int.natCast_nonneg m.1) (Int.natCast_nonneg m.2)]
        simp
      rw [e1, e2]
      have etile : listSlice value m.1 m.2 ++ listSlice value m.2 value.length
          = listSlice value m.1 value.length := listSlice_tile_to_end value m.1 m.2 h2
      have etile2 : listSlice value l m.1 ++ listSlice value m.1 value.length
          = listSlice value l value.length := listSlice_tile_to_end value l m.1 h1
      calc spanConcat original
            ++ spanConcat [(false, listSlice value l m.1), (true, listSlice value m.1 m.2)]
            ++ listSlice value m.2 value.length
          = spanConcat original ++ (listSlice value l m.1
              ++ (listSlice value m.1 m.2 ++ listSlice value m.2 value.length)) := by
            simp [spanConcat]
        _ = spanConcat original ++ listSlice value l value.length := by
            rw [etile, etile2]
    · rw [ihr, spanConcat_append]
      have hA : (0 : Int) ≤ (l : Int) + d := hd
      have hB : (0 : Int) ≤ (m.1 : Int) + d := by
        have hcast : (l : Int) ≤ (m.1 : Int) := Int.ofNat_le.mpr h1
        omega
      have hC : (0 : Int) ≤ (m.1 : Int) + d
          + ((sub1 (pySlice value (m.1 : Int) (m.2 : Int))).length : Int) := by omega
      have e1 : pySlice newValue ((l : Int) + d) ((m.1 : Int) + d)
          = listSlice newValue ((l : Int) + d).toNat ((m.1 : Int) + d).toNat :=
        pySlice_eq_listSlice newValue _ _ hA hB
      have e2 : pySlice newValue ((m.1 : Int) + d)
            ((m.1 : Int) + d + ((sub1 (pySlice value (m.1 : Int) (m.2 : Int))).length : Int))
          = listSlice newValue ((m.1 : Int) + d).toNat
            ((m.1 : Int) + d
              + ((sub1 (pySlice value (m.1 : Int) (m.2 : Int))).length : Int)).toNat :=
        pySlice_eq_listSlice newValue _ _ hB hC
      have ecut : ((m.2 : Int)
            + (d + ((sub1 (pySlice value (m.1 : Int) (m.2 : Int))).length : Int)
              - ((m.2 : Int) - (m.1 : Int)))).toNat
          = ((m.1 : Int) + d
              + ((sub1 (pySlice value (m.1 : Int) (m.2 : Int))).length : Int)).toNat := by
        congr 1
        ring
      rw [e1, e2, ecut]
      have hAB : ((l : Int) + d).toNat ≤ ((m.1 : Int) + d).toNat := by
        apply Int.toNat_le_toNat
        have hcast : (l : Int) ≤ (m.1 : Int) := Int.ofNat_le.mpr h1
        omega
      have hBC : ((m.1 : Int) + d).toNat ≤ ((m.1 : Int) + d
          + ((sub1 (pySlice value (m.1 : Int) (m.2 : Int))).length : Int)).toNat := by
        apply Int.toNat_le_toNat
        omega
      have etile : listSlice newValue ((m.1 : Int) + d).toNat
            ((m.1 : Int) + d
              + ((sub1 (pySlice value (m.1 : Int) (m.2 : Int))).length : Int)).toNat
          ++ listSlice newValue
            ((m.1 : Int) + d
              + ((sub1 (pySlice value (m.1 : Int) (m.2 : Int))).length : Int)).toNat
            newValue.length
          = listSlice newValue ((m.1 : Int) + d).toNat newValue.length :=
        listSlice_tile_to_end newValue _ _ hBC
      have etile2 : listSlice newValue ((l : Int) + d).toNat ((m.1 : Int) + d).toNat
            ++ listSlice newValue ((m.1 : Int) + d).toNat newValue.length
          = listSlice newValue ((l : Int) + d).toNat newValue.length :=
        listSlice_tile_to_end newValue _ _ hAB
      calc spanConcat marked
            ++ spanConcat [(false, listSlice newValue ((l : Int) + d).toNat
                  ((m.1 : Int) + d).toNat),
                (true, listSlice newValue ((m.1 : Int) + d).toNat
                  ((m.1 : Int) + d
                    + ((sub1 (pySlice value (m.1 : Int) (m.2 : Int))).length : Int)).toNat)]
            ++ listSlice newValue
              ((m.1 : Int) + d
                + ((sub1 (pySlice value (m.1 : Int) (m.2 : Int))).length : Int)).toNat
              newValue.length
          = spanConcat marked
            ++ (listSlice newValue ((l : Int) + d).toNat ((m.1 : Int) + d).toNat
              ++ (listSlice newValue ((m.1 : Int) + d).toNat
                  ((m.1 : Int) + d
                    + ((sub1 (pySlice value (m.1 : Int) (m.2 : Int))).length : Int)).toNat
                ++ listSlice newValue
                  ((m.1 : Int) + d
                    + ((sub1 (pySlice value (m.1 : Int) (m.2 : Int))).length : Int)).toNat
                  newValue.length)) := by
            simp [spanConcat]
        _ = spanConcat marked ++ listSlice newValue ((l : Int) + d).toNat newValue.length := by
            rw [etile, etile2]

/-- Supporting result for the diff-reconstruction invariant: unlike the
plain renderer, the REGEX renderer (`printDifferenceRegex`, whose suffix
appends follow the loop) does satisfy it — for every per-match
substitution function and every left-to-right non-overlapping span list,
the emitted spans of the original side concatenate to the original and
those of the new side to the substituted value. -/
theorem printDifferenceRegex_reconstructs (sub1 : List Char → List Char)
    (value newValue : List Char) (mspans : List (Nat × Nat))
    (hs : SpansSorted 0 mspans) :
    spanConcat (printDifferenceRegex sub1 value newValue mspans).1 = value
    ∧ spanConcat (printDifferenceRegex sub1 value newValue mspans).2 = newValue := by
  obtain ⟨h1, h2⟩ := diffRegexLoop_concat sub1 value newValue mspans 0 0 [] [] hs (by simp)
  constructor
  · rw [printDifferenceRegex, h1]
    simp [spanConcat, listSlice]
  · rw [printDifferenceRegex, h2]
    simp [spanConcat, listSlice]
